import Mathlib

/-
Verification of the block-mesh voxel meshing library.

This file shallowly embeds the library's data model and the two meshing
algorithms (the simple per-face culling algorithm and the greedy merging
algorithm) in Lean, and proves the specified properties about them.

Modelling conventions:
- Machine u32 values are Nat with explicit reduction modulo 2^32 at every
  operation that the source performs on u32 (Rust release semantics:
  wrap-around on overflow and underflow).
- The flat voxel buffer is a total function from offsets to voxel values
  together with a length; unchecked reads are function application, and the
  safety theorem shows all reads made on valid inputs land below the length.
- A shape is modelled as the class the library requires of shapes: a
  linearization with constant per-axis offset deltas (strides), together
  with its inverse.  The row-major shape (ndshape ConstShape3u32) is the
  concrete instance used by witnesses.
- i32 intermediates (the interior-extent computation) are modelled with
  exact Int arithmetic followed by the u32 reinterpretation cast; the
  theorems carry hypotheses keeping those intermediates inside i32 range.
-/

namespace BlockMesh

/-- Modulus of u32 arithmetic. -/
def U32M : Nat := 4294967296

/-- Wrapping u32 addition. -/
def wadd (a b : Nat) : Nat := (a + b) % U32M

/-- Wrapping u32 subtraction. -/
def wsub (a b : Nat) : Nat := (a % U32M + (U32M - b % U32M)) % U32M

/-- Wrapping u32 multiplication. -/
def wmul (a b : Nat) : Nat := (a * b) % U32M

/-- A 3d lattice point / vector with Nat (u32 value) components. -/
structure P3 where
  x : Nat
  y : Nat
  z : Nat
deriving DecidableEq

/-- Componentwise addition of lattice vectors. -/
def P3.add (p q : P3) : P3 := ⟨p.x + q.x, p.y + q.y, p.z + q.z⟩

/-- Componentwise wrapping u32 addition. -/
def P3.waddV (p q : P3) : P3 := ⟨wadd p.x q.x, wadd p.y q.y, wadd p.z q.z⟩

/-- Scalar multiple of a lattice vector. -/
def P3.smul (k : Nat) (p : P3) : P3 := ⟨k * p.x, k * p.y, k * p.z⟩

/-- Componentwise truncated subtraction. -/
def P3.sub (p q : P3) : P3 := ⟨p.x - q.x, p.y - q.y, p.z - q.z⟩

/-- Componentwise order. -/
def P3.le (p q : P3) : Prop := p.x ≤ q.x ∧ p.y ≤ q.y ∧ p.z ≤ q.z

/-- One of the three coordinate axes (src/geometry/axis.rs, Axis). -/
inductive Axis where
  | X
  | Y
  | Z
deriving DecidableEq, Fintype

/-- Component of a point on the given axis (array indexing by axis index). -/
def P3.get (p : P3) : Axis → Nat
  | Axis.X => p.x
  | Axis.Y => p.y
  | Axis.Z => p.z

/-- Replace the component of a point on the given axis. -/
def P3.set (p : P3) : Axis → Nat → P3
  | Axis.X, n => ⟨n, p.y, p.z⟩
  | Axis.Y, n => ⟨p.x, n, p.z⟩
  | Axis.Z, n => ⟨p.x, p.y, n⟩

/-- Unit vector of an axis, as Axis::get_unit_vector. -/
def Axis.unitVector : Axis → P3
  | Axis.X => ⟨1, 0, 0⟩
  | Axis.Y => ⟨0, 1, 0⟩
  | Axis.Z => ⟨0, 0, 1⟩

/-- One of the six NUV axis orderings (src/geometry/axis.rs, AxisPermutation). -/
inductive AxisPermutation where
  | Xyz
  | Zxy
  | Yzx
  | Zyx
  | Xzy
  | Yxz
deriving DecidableEq

/-- Parity sign of the permutation, as AxisPermutation::sign. -/
def AxisPermutation.sign : AxisPermutation → Int
  | AxisPermutation.Xyz => 1
  | AxisPermutation.Zxy => 1
  | AxisPermutation.Yzx => 1
  | AxisPermutation.Zyx => -1
  | AxisPermutation.Xzy => -1
  | AxisPermutation.Yxz => -1

/-- The three axes in permutation order, as AxisPermutation::axes. -/
def AxisPermutation.axes : AxisPermutation → Axis × Axis × Axis
  | AxisPermutation.Xyz => (Axis.X, Axis.Y, Axis.Z)
  | AxisPermutation.Zxy => (Axis.Z, Axis.X, Axis.Y)
  | AxisPermutation.Yzx => (Axis.Y, Axis.Z, Axis.X)
  | AxisPermutation.Zyx => (Axis.Z, Axis.Y, Axis.X)
  | AxisPermutation.Xzy => (Axis.X, Axis.Z, Axis.Y)
  | AxisPermutation.Yxz => (Axis.Y, Axis.X, Axis.Z)

/-- A cube face descriptor (src/geometry/face.rs, OrientedBlockFace).  The
n, u, v unit vectors the Rust struct stores are always derived from the
permutation by OrientedBlockFace::new, so here they are derived functions. -/
structure OrientedBlockFace where
  n_sign : Int
  permutation : AxisPermutation
deriving DecidableEq

/-- Normal axis of the face (first in the permutation). -/
def OrientedBlockFace.nAxis (f : OrientedBlockFace) : Axis := f.permutation.axes.1

/-- U axis of the face (second in the permutation). -/
def OrientedBlockFace.uAxis (f : OrientedBlockFace) : Axis := f.permutation.axes.2.1

/-- V axis of the face (third in the permutation). -/
def OrientedBlockFace.vAxis (f : OrientedBlockFace) : Axis := f.permutation.axes.2.2

/-- The unit vector n stored by OrientedBlockFace::new. -/
def OrientedBlockFace.n (f : OrientedBlockFace) : P3 := f.nAxis.unitVector

/-- The unit vector u stored by OrientedBlockFace::new. -/
def OrientedBlockFace.u (f : OrientedBlockFace) : P3 := f.uAxis.unitVector

/-- The unit vector v stored by OrientedBlockFace::new. -/
def OrientedBlockFace.v (f : OrientedBlockFace) : P3 := f.vAxis.unitVector

/-- The signed normal n * n_sign reinterpreted as u32 components
(signed_normal().as_uvec3(): negative components wrap modulo 2^32). -/
def OrientedBlockFace.signedNormalU32 (f : OrientedBlockFace) : P3 :=
  if f.n_sign > 0 then f.n else ⟨wsub 0 f.n.x, wsub 0 f.n.y, wsub 0 f.n.z⟩

/-- The six faces of the right-handed Y-up configuration
(RIGHT_HANDED_Y_UP_CONFIG.faces). -/
def rhYUpFaces : Fin 6 → OrientedBlockFace
  | 0 => ⟨-1, AxisPermutation.Xzy⟩
  | 1 => ⟨-1, AxisPermutation.Yzx⟩
  | 2 => ⟨-1, AxisPermutation.Zxy⟩
  | 3 => ⟨1, AxisPermutation.Xzy⟩
  | 4 => ⟨1, AxisPermutation.Yzx⟩
  | 5 => ⟨1, AxisPermutation.Zxy⟩

/-- Visibility classification of a voxel (lib.rs, VoxelVisibility). -/
inductive VoxelVisibility where
  | Empty
  | Translucent
  | Opaque
deriving DecidableEq

/-- A shape: declared dimensions plus a linearization with constant per-axis
strides and its inverse (the contract the library places on ndshape Shape:
a bijection on the declared box whose unit steps have constant deltas). -/
structure Shape3 where
  dims : P3
  sX : Nat
  sY : Nat
  sZ : Nat
  delin : Nat → P3

/-- Linearize a coordinate triple to a flat offset (u32 arithmetic). -/
def Shape3.lin (sh : Shape3) (p : P3) : Nat :=
  (p.x * sh.sX + p.y * sh.sY + p.z * sh.sZ) % U32M

/-- Element count of the shape as a u32 (Shape::size). -/
def Shape3.size (sh : Shape3) : Nat :=
  (sh.dims.x * sh.dims.y * sh.dims.z) % U32M

/-- Membership of a point in the shape's own local box [0, dims). -/
def Shape3.inBox (sh : Shape3) (p : P3) : Prop :=
  p.x < sh.dims.x ∧ p.y < sh.dims.y ∧ p.z < sh.dims.z

/-- The row-major shape with given dimensions (ndshape ConstShape3u32:
strides 1, sx, sx*sy; delinearize by mod and division). -/
def rowMajor (sx sy sz : Nat) : Shape3 :=
  { dims := ⟨sx, sy, sz⟩
    sX := 1
    sY := sx
    sZ := sx * sy
    delin := fun i => ⟨i % sx, (i / sx) % sy, i / (sx * sy)⟩ }

/-- The properties the library requires of a shape: the element count fits
in a u32, the linearization maps the declared box below the element count
without overflow, and delinearize inverts linearize on the box. -/
structure Shape3.Lawful (sh : Shape3) : Prop where
  sizeSmall : sh.dims.x * sh.dims.y * sh.dims.z < U32M
  linLt : ∀ p : P3, sh.inBox p →
    p.x * sh.sX + p.y * sh.sY + p.z * sh.sZ < sh.dims.x * sh.dims.y * sh.dims.z
  delinLin : ∀ p : P3, sh.inBox p → sh.delin (sh.lin p) = p

/-- An axis-aligned box: minimum corner and per-axis extent
(ilattice Extent with unsigned coordinates). -/
structure ExtentN where
  minimum : P3
  shape : P3
deriving DecidableEq

/-- Membership of a point in an extent. -/
def ExtentN.contains (e : ExtentN) (p : P3) : Prop :=
  e.minimum.x ≤ p.x ∧ p.x < e.minimum.x + e.shape.x ∧
  e.minimum.y ≤ p.y ∧ p.y < e.minimum.y + e.shape.y ∧
  e.minimum.z ≤ p.z ∧ p.z < e.minimum.z + e.shape.z

instance (e : ExtentN) (p : P3) : Decidable (e.contains p) := by
  unfold ExtentN.contains
  infer_instance

/-- The arithmetic progression a, a+1, ..., a+n-1. -/
def rangeFrom (a n : Nat) : List Nat := (List.range n).map (fun i => a + i)

/-- All lattice points of an extent, x varying fastest (Extent::iter3). -/
def ExtentN.iter3 (e : ExtentN) : List P3 :=
  (rangeFrom e.minimum.z e.shape.z).flatMap (fun zz =>
    (rangeFrom e.minimum.y e.shape.y).flatMap (fun yy =>
      (rangeFrom e.minimum.x e.shape.x).map (fun xx => P3.mk xx yy zz)))

/-- Least upper bound of an extent, minimum + shape in u32 arithmetic
(Extent::least_upper_bound). -/
def ExtentN.lub (e : ExtentN) : P3 :=
  ⟨wadd e.minimum.x e.shape.x, wadd e.minimum.y e.shape.y, wadd e.minimum.z e.shape.z⟩

/-- Reinterpretation of a u32 value as i32 (UVec3::as_ivec3 per component). -/
def toI32 (n : Nat) : Int :=
  if n % U32M < 2147483648 then (n % U32M : Int) else (n % U32M : Int) - (U32M : Int)

/-- Reinterpretation of an i32 value as u32 (IVec3::as_uvec3 per component). -/
def intToU32 (i : Int) : Nat := (i % (U32M : Int)).toNat

/-- The interior extent both algorithms sweep: the query extent, converted
to i32, padded by -1 on every side, converted back to u32
(Extent::from_min_and_max, padded(-1), as_uvec3 in simple.rs / greedy.rs). -/
def interiorOf (qmin qmax : P3) : ExtentN :=
  { minimum := ⟨intToU32 (toI32 qmin.x + 1), intToU32 (toI32 qmin.y + 1),
      intToU32 (toI32 qmin.z + 1)⟩
    shape := ⟨intToU32 (toI32 qmax.x - toI32 qmin.x + 1 - 2),
      intToU32 (toI32 qmax.y - toI32 qmin.y + 1 - 2),
      intToU32 (toI32 qmax.z - toI32 qmin.z + 1 - 2)⟩ }

/-- Extent::check_positive_shape on unsigned coordinates: every component of
the shape nonzero. -/
def checkPositiveShape (shape : P3) : Bool :=
  decide (shape.x ≠ 0) && decide (shape.y ≠ 0) && decide (shape.z ≠ 0)

/-- Extent::from_min_and_max on unsigned coordinates: shape is
max - min + 1 in wrapping u32 arithmetic. -/
def extentFromMinMaxU (qmin qmax : P3) : ExtentN :=
  { minimum := qmin
    shape := ⟨wadd (wsub qmax.x qmin.x) 1, wadd (wsub qmax.y qmin.y) 1,
      wadd (wsub qmax.z qmin.z) 1⟩ }

/-- Extent::is_subset_of: minimum bounded below by the other minimum and
least upper bound bounded above by the other least upper bound. -/
def isSubsetOfU (a b : ExtentN) : Bool :=
  decide (b.minimum.x ≤ a.minimum.x) && decide (b.minimum.y ≤ a.minimum.y) &&
  decide (b.minimum.z ≤ a.minimum.z) &&
  decide (a.lub.x ≤ b.lub.x) && decide (a.lub.y ≤ b.lub.y) &&
  decide (a.lub.z ≤ b.lub.z)

/-- The entry precondition check (src/bounds.rs, assert_in_bounds): true
means the call proceeds, false means the Rust code panics.  The four
conjuncts are, in panic order: buffer at least the shape's element count,
positive shape dimensions, positive query shape, query contained in the
shape's local extent. -/
def assertInBounds (len : Nat) (sh : Shape3) (qmin qmax : P3) : Bool :=
  decide (sh.size ≤ len) &&
  checkPositiveShape sh.dims &&
  checkPositiveShape (extentFromMinMaxU qmin qmax).shape &&
  isSubsetOfU (extentFromMinMaxU qmin qmax) ⟨⟨0, 0, 0⟩, sh.dims⟩

/-- The capability contract on voxel values (lib.rs Voxel, greedy.rs
MergeVoxel): a visibility classifier plus the two equality-comparable merge
keys. -/
structure VoxelType (α M N : Type) where
  vis : α → VoxelVisibility
  mergeValue : α → M
  mergeValueFacingNeighbour : α → N

/-- A quad with minimum corner, width, height and the merged voxel payload
(src/src/buffer.rs and the quad pushed by greedy.rs). -/
structure UnorientedQuad (α : Type) where
  minimum : P3
  width : Nat
  height : Nat
  voxel : α
deriving DecidableEq

/-- A unit quad: just the cell it sits on (simple.rs pushes
UnorientedUnitQuad with the cell as minimum). -/
structure UnorientedUnitQuad where
  minimum : P3
deriving DecidableEq

/-- Six per-face groups of unit quads (UnitQuadBuffer). -/
def UnitQuadBuffer : Type := Fin 6 → List UnorientedUnitQuad

/-- Append a quad at the end of one group. -/
def pushUnit (out : UnitQuadBuffer) (i : Fin 6) (q : UnorientedUnitQuad) : UnitQuadBuffer :=
  Function.update out i (out i ++ [q])

section Algorithms

variable {α M N : Type} [DecidableEq M] [DecidableEq N]

/-- The per-(cell, face) emission rule of the simple algorithm: the match
on the neighbor visibility in visible_block_faces_with_voxel_view
(src/simple.rs).  The enclosing loop has already skipped empty cells. -/
def simpleFaceRule (vt : VoxelType α M N) (pVoxel neighborVoxel : α) : Bool :=
  match vt.vis neighborVoxel with
  | VoxelVisibility.Empty => true
  | VoxelVisibility.Translucent => decide (vt.vis pVoxel = VoxelVisibility.Opaque)
  | VoxelVisibility.Opaque => false

/-- Per-cell body of the loop of visible_block_faces_with_voxel_view
(src/simple.rs): skip an empty cell, otherwise visit the 6 faces, read the
neighbor through the per-face kernel stride (wrapping add; the strides are
constants precomputed before the loop, inlined here) and emit a unit quad
into the face's group when the rule fires. -/
def simpleCellStep (vt : VoxelType α M N) (voxels : Nat → α) (sh : Shape3)
    (faces : Fin 6 → OrientedBlockFace) (out : UnitQuadBuffer) (p : P3) :
    UnitQuadBuffer :=
  if vt.vis (voxels (sh.lin p)) = VoxelVisibility.Empty then out
  else
    (List.finRange 6).foldl (fun out2 faceIndex =>
      if simpleFaceRule vt (voxels (sh.lin p))
          (voxels (wadd (sh.lin p) (sh.lin (faces faceIndex).signedNormalU32))) then
        pushUnit out2 faceIndex ⟨p⟩
      else out2) out

/-- Loop of visible_block_faces_with_voxel_view (src/simple.rs): fold the
per-cell step over the interior cells. -/
def visibleBlockFacesBody (vt : VoxelType α M N) (voxels : Nat → α) (sh : Shape3)
    (faces : Fin 6 → OrientedBlockFace) (interior : ExtentN)
    (output : UnitQuadBuffer) : UnitQuadBuffer :=
  interior.iter3.foldl (simpleCellStep vt voxels sh faces) output

/-- visible_block_faces (src/simple.rs): run the bounds check, then the body
over the interior of the query extent; none models the panic. -/
def visibleBlockFaces (vt : VoxelType α M N) (voxels : Nat → α) (len : Nat)
    (sh : Shape3) (qmin qmax : P3) (faces : Fin 6 → OrientedBlockFace)
    (output : UnitQuadBuffer) : Option UnitQuadBuffer :=
  if assertInBounds len sh qmin qmax then
    some (visibleBlockFacesBody vt voxels sh faces (interiorOf qmin qmax) output)
  else none

/-- face_needs_mesh (src/greedy.rs): not yet visited, non-empty, and not
occluded by the voxel sharing the face (read through a wrapping add of the
visibility offset). -/
def faceNeedsMesh (vt : VoxelType α M N) (voxel : α) (voxelStride visibilityOffset : Nat)
    (voxels : Nat → α) (visited : Nat → Bool) : Bool :=
  if vt.vis voxel = VoxelVisibility.Empty || visited voxelStride then false
  else
    let adjacentVoxel := voxels (wadd voxelStride visibilityOffset)
    match vt.vis adjacentVoxel with
    | VoxelVisibility.Empty => true
    | VoxelVisibility.Translucent => decide (vt.vis voxel = VoxelVisibility.Opaque)
    | VoxelVisibility.Opaque => false

/-- Strides for one face sweep (merge_strategy.rs, FaceStrides). -/
structure FaceStrides where
  nStride : Nat
  uStride : Nat
  vStride : Nat
  visibilityOffset : Nat

/-- The 4-corner ambient occlusion pattern of one face ([u8; 4]). -/
structure AO4 where
  a0 : Nat
  a1 : Nat
  a2 : Nat
  a3 : Nat
deriving DecidableEq

/-- The ambient occlusion memo keyed by (lattice offset, face id)
(the HashMap<(u32, u8), [u8; 4]> of merge_strategy.rs). -/
def AOMap : Type := Nat × Nat → Option AO4

/-- Insert into the ambient occlusion memo. -/
def insertAO (m : AOMap) (k : Nat × Nat) (v : AO4) : AOMap :=
  fun k2 => if k2 = k then some v else m k2

/-- Read the ambient occlusion memo, defaulting an absent entry to zero
(the source unwraps an entry it has just ensured is present). -/
def lookupAO (m : AOMap) (k : Nat × Nat) : AO4 :=
  (m k).getD ⟨0, 0, 0, 0⟩

/-- get_face_index (merge_strategy.rs, VoxelMerger): identify which of the
six signed directions the visibility offset steps in, by delinearizing the
start offset and the neighbor offset and comparing coordinates. -/
def getFaceIndex (sh : Shape3) (visibilityOffset startStride : Nat) : Nat :=
  let p := sh.delin startStride
  let q := sh.delin (wadd startStride visibilityOffset)
  if q.x < p.x then 0
  else if q.y < p.y then 1
  else if q.z < p.z then 2
  else if p.x < q.x then 3
  else if p.y < q.y then 4
  else if p.z < q.z then 5
  else 0

/-- The rule combining three of the up-to-8 probed neighbors into the
ambient occlusion value of one quad corner (calculate_ao body, repeated
four times in the source with the side/diagonal/side triple rotated). -/
def aoCorner (s1 d s2 : VoxelVisibility) : Nat :=
  if s1 = VoxelVisibility.Opaque ∧ s2 = VoxelVisibility.Opaque then 0
  else if d = VoxelVisibility.Opaque ∧
      (s1 = VoxelVisibility.Opaque ∨ s2 = VoxelVisibility.Opaque) then 1
  else if s1 = VoxelVisibility.Opaque ∨ d = VoxelVisibility.Opaque ∨
      s2 = VoxelVisibility.Opaque then 2
  else 3

/-- The 8 lattice probes surrounding the face, in the source's order,
selected by the face id (calculate_ao neighbour tables; the ±1 coordinate
steps are u32 wrapping arithmetic). -/
def aoNeighbourCoord (c : P3) (currentFace : Nat) (i : Nat) : P3 :=
  if currentFace = 0 ∨ currentFace = 3 then
    match i with
    | 0 => ⟨c.x, c.y, wadd c.z 1⟩
    | 1 => ⟨c.x, wsub c.y 1, wadd c.z 1⟩
    | 2 => ⟨c.x, wsub c.y 1, c.z⟩
    | 3 => ⟨c.x, wsub c.y 1, wsub c.z 1⟩
    | 4 => ⟨c.x, c.y, wsub c.z 1⟩
    | 5 => ⟨c.x, wadd c.y 1, wsub c.z 1⟩
    | 6 => ⟨c.x, wadd c.y 1, c.z⟩
    | _ => ⟨c.x, wadd c.y 1, wadd c.z 1⟩
  else if currentFace = 1 ∨ currentFace = 4 then
    match i with
    | 0 => ⟨c.x, c.y, wadd c.z 1⟩
    | 1 => ⟨wsub c.x 1, c.y, wadd c.z 1⟩
    | 2 => ⟨wsub c.x 1, c.y, c.z⟩
    | 3 => ⟨wsub c.x 1, c.y, wsub c.z 1⟩
    | 4 => ⟨c.x, c.y, wsub c.z 1⟩
    | 5 => ⟨wadd c.x 1, c.y, wsub c.z 1⟩
    | 6 => ⟨wadd c.x 1, c.y, c.z⟩
    | _ => ⟨wadd c.x 1, c.y, wadd c.z 1⟩
  else
    match i with
    | 0 => ⟨wadd c.x 1, c.y, c.z⟩
    | 1 => ⟨wadd c.x 1, wsub c.y 1, c.z⟩
    | 2 => ⟨c.x, wsub c.y 1, c.z⟩
    | 3 => ⟨wsub c.x 1, wsub c.y 1, c.z⟩
    | 4 => ⟨wsub c.x 1, c.y, c.z⟩
    | 5 => ⟨wsub c.x 1, wadd c.y 1, c.z⟩
    | 6 => ⟨c.x, wadd c.y 1, c.z⟩
    | _ => ⟨wadd c.x 1, wadd c.y 1, c.z⟩

/-- calculate_ao (merge_strategy.rs): delinearize the facing neighbor of the
cell at the given offset, probe the 8 surrounding lattice cells in the
plane selected by the face id, and combine triples into the 4 corner
values.  The source fills ao[1], ao[0], ao[2], ao[3] in that order from
neighbour triples (0,1,2), (2,3,4), (4,5,6), (6,7,0). -/
def calculateAO (vt : VoxelType α M N) (voxels : Nat → α)
    (visibilityOffset stride currentFace : Nat) (sh : Shape3) : AO4 :=
  let c := sh.delin (wadd stride visibilityOffset)
  let nbVis : Nat → VoxelVisibility :=
    fun i => vt.vis (voxels (sh.lin (aoNeighbourCoord c currentFace i)))
  { a0 := aoCorner (nbVis 2) (nbVis 3) (nbVis 4)
    a1 := aoCorner (nbVis 0) (nbVis 1) (nbVis 2)
    a2 := aoCorner (nbVis 4) (nbVis 5) (nbVis 6)
    a3 := aoCorner (nbVis 6) (nbVis 7) (nbVis 0) }

/-- Loop of get_row_width (merge_strategy.rs), with the remaining iteration
budget maxWidth - quadWidth as explicit fuel: while the width is below the
bound, read the cell and its facing neighbor, stop on an invisible face,
memoize the ambient occlusion of the cell and of the row start, stop when
the merge value, the neighbor merge value or the ambient occlusion pattern
differs from the row start, otherwise grow the width and step the offset by
the row stride (wrapping adds). -/
def getRowWidthGo (vt : VoxelType α M N) (voxels : Nat → α) (visited : Nat → Bool)
    (qv : M) (qnv : N) (visibilityOffset delta : Nat) (sh : Shape3)
    (startStride currentFace : Nat) :
    Nat → Nat → Nat → AOMap → Nat × AOMap
  | 0, quadWidth, _, aos => (quadWidth, aos)
  | fuel + 1, quadWidth, rowStride, aos =>
    let voxel := voxels rowStride
    let neighbour := voxels (wadd rowStride visibilityOffset)
    if ¬ faceNeedsMesh vt voxel rowStride visibilityOffset voxels visited then
      (quadWidth, aos)
    else
      let aos1 :=
        if (aos (rowStride, currentFace)).isSome then aos
        else insertAO aos (rowStride, currentFace)
          (calculateAO vt voxels visibilityOffset rowStride currentFace sh)
      let aos2 :=
        if (aos1 (startStride, currentFace)).isSome then aos1
        else insertAO aos1 (startStride, currentFace)
          (calculateAO vt voxels visibilityOffset startStride currentFace sh)
      if ¬ (vt.mergeValue voxel = qv) ∨ ¬ (vt.mergeValueFacingNeighbour neighbour = qnv) ∨
          ¬ (lookupAO aos2 (rowStride, currentFace) = lookupAO aos2 (startStride, currentFace)) then
        (quadWidth, aos2)
      else
        getRowWidthGo vt voxels visited qv qnv visibilityOffset delta sh
          startStride currentFace fuel (quadWidth + 1) (wadd rowStride delta) aos2

/-- get_row_width (merge_strategy.rs): compute the face id once from the row
start, then run the growth loop from width 0. -/
def getRowWidth (vt : VoxelType α M N) (voxels : Nat → α) (visited : Nat → Bool)
    (qv : M) (qnv : N) (visibilityOffset startStride delta maxWidth : Nat)
    (sh : Shape3) (aos : AOMap) : Nat × AOMap :=
  let currentFace := getFaceIndex sh visibilityOffset startStride
  getRowWidthGo vt voxels visited qv qnv visibilityOffset delta sh
    startStride currentFace maxWidth 0 startStride aos

/-- Height loop of find_quad (merge_strategy.rs), fuel = maxHeight -
quadHeight: while below the height bound, measure the next row with the
width bound fixed at the quad width; stop at the first row narrower than
the quad width, otherwise grow the height and step to the next row
(wrapping add of the v stride). -/
def findQuadHeightGo (vt : VoxelType α M N) (voxels : Nat → α) (visited : Nat → Bool)
    (qv : M) (qnv : N) (strides : FaceStrides) (sh : Shape3) (quadWidth : Nat) :
    Nat → Nat → Nat → AOMap → Nat × AOMap
  | 0, quadHeight, _, aos => (quadHeight, aos)
  | fuel + 1, quadHeight, rowStartStride, aos =>
    let r := getRowWidth vt voxels visited qv qnv strides.visibilityOffset
      rowStartStride strides.uStride quadWidth sh aos
    if r.1 < quadWidth then (quadHeight, r.2)
    else
      findQuadHeightGo vt voxels visited qv qnv strides sh quadWidth
        fuel (quadHeight + 1) (wadd rowStartStride strides.vStride) r.2

/-- VoxelMerger::find_quad (merge_strategy.rs): take the merge value of the
minimum cell and the facing-neighbour merge value of its neighbor, find the
widest row, then grow the height one row at a time without changing the
width. -/
def findQuad (vt : VoxelType α M N) (minIndex maxWidth maxHeight : Nat)
    (strides : FaceStrides) (voxels : Nat → α) (visited : Nat → Bool)
    (sh : Shape3) (aos : AOMap) : Nat × Nat × AOMap :=
  let quadValue := vt.mergeValue (voxels minIndex)
  let quadNeighbourValue :=
    vt.mergeValueFacingNeighbour (voxels (wadd minIndex strides.visibilityOffset))
  let rw := getRowWidth vt voxels visited quadValue quadNeighbourValue
    strides.visibilityOffset minIndex strides.uStride maxWidth sh aos
  let rh := findQuadHeightGo vt voxels visited quadValue quadNeighbourValue strides sh
    rw.1 (maxHeight - 1) 1 (wadd minIndex strides.vStride) rw.2
  (rw.1, rh.1, rh.2)

/-- ndcopy fill3 as used by greedy_quads_for_face: mark every offset of the
given box as visited. -/
def fill3 (sh : Shape3) (quadShape quadMin : P3) (visited : Nat → Bool) : Nat → Bool :=
  fun i =>
    if (ExtentN.mk quadMin quadShape).iter3.any (fun c => sh.lin c == i) then true
    else visited i

/-- State threaded through one face sweep: the visited mask, the quads
emitted so far into this face's group, and the ambient occlusion memo. -/
structure GreedySweepState (α : Type) where
  visited : Nat → Bool
  quads : List (UnorientedQuad α)
  aos : AOMap

/-- Body of the raster loop of greedy_quads_for_face (greedy.rs): skip a
cell whose face needs no mesh; otherwise find the biggest quad from it
within the slice bounds, mark its cells visited, and emit it. -/
def greedyProcessCell (vt : VoxelType α M N) (voxels : Nat → α) (sh : Shape3)
    (nAx uAx vAx : Axis) (strides : FaceStrides) (uUb vUb : Nat)
    (st : GreedySweepState α) (quadMin : P3) : GreedySweepState α :=
  let quadMinIndex := sh.lin quadMin
  let quadMinVoxel := voxels quadMinIndex
  if ¬ faceNeedsMesh vt quadMinVoxel quadMinIndex strides.visibilityOffset voxels st.visited then
    st
  else
    let maxWidth := wsub uUb (quadMin.get uAx)
    let maxHeight := wsub vUb (quadMin.get vAx)
    let r := findQuad vt quadMinIndex maxWidth maxHeight strides voxels st.visited sh st.aos
    let quadShape := (((P3.mk 0 0 0).set nAx 1).set uAx r.1).set vAx r.2.1
    { visited := fill3 sh quadShape quadMin st.visited
      quads := st.quads ++ [⟨quadMin, r.1, r.2.1, quadMinVoxel⟩]
      aos := r.2.2 }

/-- One slice of the sweep (greedy.rs): bind the u/v upper bounds from the
slice's least upper bound, then fold the raster loop over the slice. -/
def greedySweepSlice (vt : VoxelType α M N) (voxels : Nat → α) (sh : Shape3)
    (nAx uAx vAx : Axis) (strides : FaceStrides)
    (st : GreedySweepState α) (sliceExtent : ExtentN) : GreedySweepState α :=
  let uUb := sliceExtent.lub.get uAx
  let vUb := sliceExtent.lub.get vAx
  sliceExtent.iter3.foldl (greedyProcessCell vt voxels sh nAx uAx vAx strides uUb vUb) st

/-- One iteration of the slice loop of greedy_quads_for_face (greedy.rs):
sweep the current slice, then advance the slice extent by the face's n unit
vector (a wrapping componentwise add on the minimum). -/
def greedySliceStep (vt : VoxelType α M N) (voxels : Nat → α) (sh : Shape3)
    (nAx uAx vAx : Axis) (strides : FaceStrides) (nVec : P3)
    (p : ExtentN × GreedySweepState α) : ExtentN × GreedySweepState α :=
  (ExtentN.mk (p.1.minimum.waddV nVec) p.1.shape,
    greedySweepSlice vt voxels sh nAx uAx vAx strides p.2 p.1)

/-- greedy_quads_for_face (greedy.rs): zero the visited mask, set up the
slice shape and the face strides (the negative-direction visibility offset
is a wrapping negation), then sweep the slices stacked along the normal
axis, advancing the slice extent by the n unit vector each time.

Modelled from the spec: the driver plumbing of the ambient occlusion memo
map is not part of src/greedy.rs (which predates the memo parameters of
MergeStrategy::find_quad in src/greedy/merge_strategy.rs); per the spec the
map memoizes (lattice offset, face id) across overlapping probes, so it is
instantiated empty here at the start of the face sweep and threaded through
every find_quad call of the sweep. -/
def greedyQuadsForFace (vt : VoxelType α M N) (voxels : Nat → α) (sh : Shape3)
    (interior : ExtentN) (face : OrientedBlockFace)
    (quads0 : List (UnorientedQuad α)) : (Nat → Bool) × List (UnorientedQuad α) :=
  let nAx := face.nAxis
  let uAx := face.uAxis
  let vAx := face.vAxis
  let interiorShape := interior.shape
  let numSlices := interiorShape.get nAx
  let sliceShape :=
    (((P3.mk 0 0 0).set nAx 1).set uAx (interiorShape.get uAx)).set vAx (interiorShape.get vAx)
  let nStride := sh.lin face.n
  let uStride := sh.lin face.u
  let vStride := sh.lin face.v
  let strides : FaceStrides :=
    ⟨nStride, uStride, vStride, if face.n_sign > 0 then nStride else wsub 0 nStride⟩
  let init : GreedySweepState α := ⟨fun _ => false, quads0, fun _ => none⟩
  let final := (List.range numSlices).foldl
    (fun p _ => greedySliceStep vt voxels sh nAx uAx vAx strides face.n p)
    (ExtentN.mk interior.minimum sliceShape, init)
  ((final.2).visited, (final.2).quads)

/-- The caller-reusable greedy output buffer (greedy.rs GreedyQuadsBuffer):
six quad groups plus the visited mask and its current length. -/
structure GreedyQuadsBuffer (α : Type) where
  groups : Fin 6 → List (UnorientedQuad α)
  visited : Nat → Bool
  visitedLen : Nat

/-- GreedyQuadsBuffer::reset: clear the six groups; reallocate the visited
mask only when the required size differs from its current length, keeping
it (contents included) otherwise. -/
def GreedyQuadsBuffer.reset (b : GreedyQuadsBuffer α) (size : Nat) : GreedyQuadsBuffer α :=
  { groups := fun _ => []
    visited := if size ≠ b.visitedLen then (fun _ => false) else b.visited
    visitedLen := if size ≠ b.visitedLen then size else b.visitedLen }

/-- greedy_quads / greedy_quads_with_merge_strategy (greedy.rs) with the
VoxelMerger strategy: run the bounds check (none models the panic), reset
the output buffer to the voxel buffer length, then sweep the six faces in
order, each face writing its own group and reusing the shared visited
mask.  greedyFaceStep is the body of the loop over (group, face) pairs:
run the face sweep starting from the face's current group, store the
resulting group and the threaded visited mask. -/
def greedyFaceStep (vt : VoxelType α M N) (voxels : Nat → α) (sh : Shape3)
    (interior : ExtentN) (faces : Fin 6 → OrientedBlockFace)
    (b : GreedyQuadsBuffer α) (i : Fin 6) : GreedyQuadsBuffer α :=
  let r := greedyQuadsForFace vt voxels sh interior (faces i) (b.groups i)
  { groups := Function.update b.groups i r.2
    visited := r.1
    visitedLen := b.visitedLen }

/-- greedy_quads / greedy_quads_with_merge_strategy continued: the bounds
check, the buffer reset, then the fold of the per-face step over the six
groups in order. -/
def greedyQuads (vt : VoxelType α M N) (voxels : Nat → α) (len : Nat)
    (sh : Shape3) (qmin qmax : P3) (faces : Fin 6 → OrientedBlockFace)
    (output : GreedyQuadsBuffer α) : Option (GreedyQuadsBuffer α) :=
  if assertInBounds len sh qmin qmax then
    let interior := interiorOf qmin qmax
    let b0 := output.reset len
    some ((List.finRange 6).foldl (greedyFaceStep vt voxels sh interior faces) b0)
  else none

/-- Componentwise wrapping u32 scalar multiple (UVec3 * u32). -/
def P3.wscale (p : P3) (k : Nat) : P3 := ⟨wmul p.x k, wmul p.y k, wmul p.z k⟩

/-- OrientedBlockFace::quad_corners (src/geometry/face.rs): the four corners
in the order [minU-minV, maxU-minV, minU-maxV, maxU-maxV], starting from
the quad minimum offset by one unit along n exactly when the normal sign is
positive, with the width and height vectors along u and v. -/
def OrientedBlockFace.quadCorners (f : OrientedBlockFace) (q : UnorientedQuad α) :
    List P3 :=
  let wVec := f.u.wscale q.width
  let hVec := f.v.wscale q.height
  let minuMinv := if f.n_sign > 0 then q.minimum.waddV f.n else q.minimum
  [minuMinv, minuMinv.waddV wVec, minuMinv.waddV hVec,
    (minuMinv.waddV wVec).waddV hVec]

end Algorithms

/-- Corner list as the spec describes quad_corners: fixed order
[minU-minV, maxU-minV, minU-maxV, maxU-maxV], U and V offsets equal to
width and height times the unit vectors of the permutation's u and v axes,
and a one-unit offset along the normal axis exactly when the normal sign is
positive (exact lattice arithmetic). -/
def specQuadCorners (f : OrientedBlockFace) (minimum : P3) (width height : Nat) :
    List P3 :=
  let base := if f.n_sign > 0 then minimum.add f.nAxis.unitVector else minimum
  let uOff := P3.smul width f.uAxis.unitVector
  let vOff := P3.smul height f.vAxis.unitVector
  [base, base.add uOff, base.add vOff, base.add (uOff.add vOff)]

/-- The wrapped per-axis size of the query extent as the entry check
computes it. -/
def querySizeW (qmin qmax : P3) (a : Axis) : Nat :=
  wadd (wsub (qmax.get a) (qmin.get a)) 1

/-- The spec's reading of condition (c) of the entry check in exact integer
arithmetic: the query extent [min, max] has non-positive size on some
axis. -/
def specQueryNonpositive (qmin qmax : P3) : Prop :=
  ∃ a : Axis, (qmax.get a : Int) - (qmin.get a : Int) + 1 ≤ 0

/-- A tiny concrete voxel type used by witnesses: the value is its own
visibility and its own merge value. -/
def demoVT : VoxelType VoxelVisibility VoxelVisibility Unit :=
  ⟨fun v => v, fun v => v, fun _ => ()⟩

section SpecVocabulary

variable {α M N : Type} [DecidableEq M] [DecidableEq N]

/-- The per-(cell, face) emission decision of the simple algorithm, read off
its loop: the cell is non-empty and the rule fires on the neighbor reached
through the face's kernel stride. -/
def simpleEmit (vt : VoxelType α M N) (voxels : Nat → α) (sh : Shape3)
    (faces : Fin 6 → OrientedBlockFace) (p : P3) (j : Fin 6) : Bool :=
  let pIndex := sh.lin p
  let pVoxel := voxels pIndex
  decide (vt.vis pVoxel ≠ VoxelVisibility.Empty) &&
    simpleFaceRule vt pVoxel
      (voxels (wadd pIndex (sh.lin (faces j).signedNormalU32)))

/-- The coordinate-level facing neighbor of a cell: one step along the
normal axis, outward in the direction of the face's sign. -/
def nbrCell (f : OrientedBlockFace) (c : P3) : P3 :=
  if f.n_sign > 0 then c.add f.n else c.sub f.n

/-- Coordinate-level face visibility of a cell: the cell is non-empty and
the rule fires on its facing neighbor. -/
def faceVisibleCell (vt : VoxelType α M N) (voxels : Nat → α) (sh : Shape3)
    (f : OrientedBlockFace) (c : P3) : Bool :=
  decide (vt.vis (voxels (sh.lin c)) ≠ VoxelVisibility.Empty) &&
    simpleFaceRule vt (voxels (sh.lin c)) (voxels (sh.lin (nbrCell f c)))

/-- The cell k steps along u and r steps along v from a base cell. -/
def cellAt (f : OrientedBlockFace) (base : P3) (k r : Nat) : P3 :=
  base.add ((P3.smul k f.u).add (P3.smul r f.v))

/-- The unit cells covered by a quad on a face: width times height cells
from its minimum. -/
def coveredCells (f : OrientedBlockFace) (q : UnorientedQuad α) : Finset P3 :=
  (Finset.range q.width ×ˢ Finset.range q.height).image
    (fun kr => cellAt f q.minimum kr.1 kr.2)

/-- The union of the covered cells of a list of quads. -/
def coveredGroup (f : OrientedBlockFace) (qs : List (UnorientedQuad α)) : Finset P3 :=
  qs.foldr (fun q s => coveredCells f q ∪ s) ∅

/-- Total area (sum of width times height) of a list of quads. -/
def areaSum (qs : List (UnorientedQuad α)) : Nat :=
  (qs.map (fun q => q.width * q.height)).sum

/-- The cells of an extent as a Finset. -/
def cellsOf (e : ExtentN) : Finset P3 := e.iter3.toFinset

/-- The visible cells of an extent for one face. -/
def visibleCells (vt : VoxelType α M N) (voxels : Nat → α) (sh : Shape3)
    (f : OrientedBlockFace) (e : ExtentN) : Finset P3 :=
  (cellsOf e).filter (fun c => faceVisibleCell vt voxels sh f c = true)

/-- Consistency of the ambient occlusion memo for a sweep with a fixed
visibility offset: every entry equals the fresh computation at its key. -/
def ConsistentAO (vt : VoxelType α M N) (voxels : Nat → α) (sh : Shape3)
    (vo : Nat) (m : AOMap) : Prop :=
  ∀ s cf v, m (s, cf) = some v → v = calculateAO vt voxels vo s cf sh

/-- The ladder of offsets produced by repeatedly adding a stride. -/
def strideSeq (start delta : Nat) : Nat → Nat
  | 0 => start
  | k + 1 => wadd (strideSeq start delta k) delta

/-- The predicate a cell of a row must satisfy for get_row_width to walk
past it: its face needs a mesh, its merge value and its neighbor's
facing-neighbour merge value match the quad's, and its ambient occlusion
pattern matches the row start's. -/
def rowPredStride (vt : VoxelType α M N) (voxels : Nat → α) (visited : Nat → Bool)
    (qv : M) (qnv : N) (vo delta : Nat) (sh : Shape3) (start cf k : Nat) : Prop :=
  faceNeedsMesh vt (voxels (strideSeq start delta k)) (strideSeq start delta k)
      vo voxels visited = true ∧
  vt.mergeValue (voxels (strideSeq start delta k)) = qv ∧
  vt.mergeValueFacingNeighbour (voxels (wadd (strideSeq start delta k) vo)) = qnv ∧
  calculateAO vt voxels vo (strideSeq start delta k) cf sh =
    calculateAO vt voxels vo start cf sh

/-- A row is fully mergeable when every cell across the already-fixed width
satisfies the row predicate relative to that row's start. -/
def rowFull (vt : VoxelType α M N) (voxels : Nat → α) (visited : Nat → Bool)
    (qv : M) (qnv : N) (vo uStride : Nat) (sh : Shape3) (w rs : Nat) : Prop :=
  ∀ j, j < w →
    rowPredStride vt voxels visited qv qnv vo uStride sh rs (getFaceIndex sh vo rs) j

/-- The strides greedy_quads_for_face computes for a face: the linearized
n, u, v unit vectors, and the visibility offset (the n stride for a
positive face, its wrapping negation for a negative face). -/
def faceStridesOf (sh : Shape3) (f : OrientedBlockFace) : FaceStrides :=
  ⟨sh.lin f.n, sh.lin f.u, sh.lin f.v,
    if f.n_sign > 0 then sh.lin f.n else wsub 0 (sh.lin f.n)⟩

/-- Invariant of one greedy face sweep: the ambient occlusion memo is
consistent, the visited mask marks exactly the offsets of cells covered by
the quads emitted so far, every emitted quad covers only visible interior
cells, the total quad area equals the number of covered cells (the quads
are disjoint), and every already-processed visible cell is covered. -/
def SweepInv (vt : VoxelType α M N) (voxels : Nat → α) (sh : Shape3)
    (f : OrientedBlockFace) (interior : ExtentN) (vo : Nat)
    (S : Finset P3) (st : GreedySweepState α) : Prop :=
  ConsistentAO vt voxels sh vo st.aos ∧
  (∀ p : P3, sh.inBox p →
    (st.visited (sh.lin p) = true ↔ p ∈ coveredGroup f st.quads)) ∧
  (∀ q ∈ st.quads, coveredCells f q ⊆ visibleCells vt voxels sh f interior) ∧
  areaSum st.quads = (coveredGroup f st.quads).card ∧
  (∀ p ∈ S, faceVisibleCell vt voxels sh f p = true → p ∈ coveredGroup f st.quads)

end SpecVocabulary

/-- A small concrete voxel buffer for witnesses: an Opaque 2x2x2 block in
the middle of a 4x4x4 row-major grid, Empty elsewhere. -/
def demoVoxels (i : Nat) : VoxelVisibility :=
  let p := (rowMajor 4 4 4).delin i
  if 1 ≤ p.x ∧ p.x ≤ 2 ∧ 1 ≤ p.y ∧ p.y ≤ 2 ∧ 1 ≤ p.z ∧ p.z ≤ 2 then
    VoxelVisibility.Opaque
  else VoxelVisibility.Empty

/-- A concrete voxel buffer refuting the quad-start-anchored reading of the
height-growth rule: in a 4x4x4 row-major grid, two Opaque cells stacked
along y at (1,1,1) and (1,2,1), plus one Opaque cell at (0,3,1) that sits
in the ambient occlusion probe plane of the second cell's -x face but not
of the first's. -/
def cexVoxels (i : Nat) : VoxelVisibility :=
  let p := (rowMajor 4 4 4).delin i
  if (p.x = 1 ∧ p.y = 1 ∧ p.z = 1) ∨ (p.x = 1 ∧ p.y = 2 ∧ p.z = 1) ∨
      (p.x = 0 ∧ p.y = 3 ∧ p.z = 1) then
    VoxelVisibility.Opaque
  else VoxelVisibility.Empty

/-! Arithmetic facts about the wrapping u32 operations. -/

theorem U32M_pos : 0 < U32M := by decide

theorem wadd_lt (a b : Nat) : wadd a b < U32M := Nat.mod_lt _ U32M_pos

theorem wadd_eq_add {a b : Nat} (h : a + b < U32M) : wadd a b = a + b :=
  Nat.mod_eq_of_lt h

theorem wsub_eq_sub {a b : Nat} (ha : a < U32M) (hb : b ≤ a) : wsub a b = a - b := by
  unfold wsub U32M at *
  omega

theorem wadd_wsub_zero (a b : Nat) : wadd a (wsub 0 b) = wsub a b := by
  unfold wadd wsub U32M
  omega

theorem wsub_wadd_cancel {a : Nat} (b : Nat) (ha : a < U32M) : wsub (wadd a b) b = a := by
  unfold wadd wsub U32M at *
  omega

/-- The raw (unreduced) linearization. -/
def Shape3.linRaw (sh : Shape3) (p : P3) : Nat :=
  p.x * sh.sX + p.y * sh.sY + p.z * sh.sZ

theorem Shape3.lin_eq_linRaw_mod (sh : Shape3) (p : P3) :
    sh.lin p = sh.linRaw p % U32M := rfl

theorem Shape3.lin_lt (sh : Shape3) (p : P3) : sh.lin p < U32M :=
  Nat.mod_lt _ U32M_pos

theorem P3.add_def (p q : P3) : p.add q = ⟨p.x + q.x, p.y + q.y, p.z + q.z⟩ := rfl

theorem Shape3.linRaw_add (sh : Shape3) (p q : P3) :
    sh.linRaw (p.add q) = sh.linRaw p + sh.linRaw q := by
  simp [Shape3.linRaw, P3.add]
  ring

theorem Shape3.lin_add (sh : Shape3) (p q : P3) :
    wadd (sh.lin p) (sh.lin q) = sh.lin (p.add q) := by
  simp [Shape3.lin_eq_linRaw_mod, sh.linRaw_add p q, wadd, Nat.add_mod]

theorem P3.sub_add_cancel {p q : P3} (h : q.le p) : (p.sub q).add q = p := by
  obtain ⟨h1, h2, h3⟩ := h
  cases p
  cases q
  simp only [P3.sub, P3.add, P3.mk.injEq] at h1 h2 h3 ⊢
  refine ⟨?_, ?_, ?_⟩ <;> omega

theorem Shape3.lin_sub (sh : Shape3) {p q : P3} (h : q.le p) :
    wsub (sh.lin p) (sh.lin q) = sh.lin (p.sub q) := by
  have h2 : wadd (sh.lin (p.sub q)) (sh.lin q) = sh.lin p := by
    rw [sh.lin_add, P3.sub_add_cancel h]
  calc wsub (sh.lin p) (sh.lin q) = wsub (wadd (sh.lin (p.sub q)) (sh.lin q)) (sh.lin q) := by
        rw [h2]
    _ = sh.lin (p.sub q) := wsub_wadd_cancel _ (sh.lin_lt _)

theorem Shape3.wadd_lin_neg (sh : Shape3) {p q : P3} (h : q.le p) :
    wadd (sh.lin p) (wsub 0 (sh.lin q)) = sh.lin (p.sub q) := by
  rw [wadd_wsub_zero, sh.lin_sub h]

/-! Axis and permutation facts. -/

theorem P3.get_add (p q : P3) (a : Axis) : (p.add q).get a = p.get a + q.get a := by
  cases a <;> rfl

theorem P3.get_smul (k : Nat) (p : P3) (a : Axis) : (P3.smul k p).get a = k * p.get a := by
  cases a <;> rfl

theorem Axis.get_unitVector (a b : Axis) :
    (Axis.unitVector a).get b = if b = a then 1 else 0 := by
  cases a <;> cases b <;> simp [Axis.unitVector, P3.get]

theorem P3.ext_get {p q : P3} (h : ∀ a : Axis, p.get a = q.get a) : p = q := by
  cases p
  cases q
  have hx := h Axis.X
  have hy := h Axis.Y
  have hz := h Axis.Z
  simp [P3.get] at hx hy hz
  simp [hx, hy, hz]

/-- The three face axes are pairwise distinct and jointly exhaust the axes. -/
theorem OrientedBlockFace.axes_distinct (f : OrientedBlockFace) :
    f.nAxis ≠ f.uAxis ∧ f.nAxis ≠ f.vAxis ∧ f.uAxis ≠ f.vAxis := by
  cases hp : f.permutation <;>
    simp [OrientedBlockFace.nAxis, OrientedBlockFace.uAxis, OrientedBlockFace.vAxis,
      AxisPermutation.axes, hp]

theorem OrientedBlockFace.axes_cover (f : OrientedBlockFace) (a : Axis) :
    a = f.nAxis ∨ a = f.uAxis ∨ a = f.vAxis := by
  cases hp : f.permutation <;> cases a <;>
    simp [OrientedBlockFace.nAxis, OrientedBlockFace.uAxis, OrientedBlockFace.vAxis,
      AxisPermutation.axes, hp]

theorem P3.get_set_same (p : P3) (a : Axis) (n : Nat) : (p.set a n).get a = n := by
  cases a <;> rfl

theorem P3.get_set_ne (p : P3) {a b : Axis} (n : Nat) (h : b ≠ a) :
    (p.set a n).get b = p.get b := by
  cases a <;> cases b <;> first
    | rfl
    | exact absurd rfl h

/-! Row-major shapes satisfy the shape contract. -/

theorem rowMajor_bound {sx sy sz px py pz : Nat} (h1 : px < sx) (h2 : py < sy)
    (h3 : pz < sz) : px + sx * (py + sy * pz) < sx * sy * sz := by
  have hA : py + sy * pz + 1 ≤ sy * (pz + 1) := by
    calc py + sy * pz + 1 = (py + 1) + sy * pz := by ring
      _ ≤ sy + sy * pz := by omega
      _ = sy * (pz + 1) := by ring
  calc px + sx * (py + sy * pz) < sx + sx * (py + sy * pz) := by omega
    _ = sx * (py + sy * pz + 1) := by ring
    _ ≤ sx * (sy * (pz + 1)) := Nat.mul_le_mul_left sx hA
    _ ≤ sx * (sy * sz) := Nat.mul_le_mul_left sx (Nat.mul_le_mul_left sy (by omega))
    _ = sx * sy * sz := by ring

theorem rowMajor_lin_closed {sx sy sz : Nat} (h : sx * sy * sz < U32M) (p : P3)
    (h1 : p.x < sx) (h2 : p.y < sy) (h3 : p.z < sz) :
    (rowMajor sx sy sz).lin p = p.x + sx * (p.y + sy * p.z) := by
  have hraw : (rowMajor sx sy sz).linRaw p = p.x + sx * (p.y + sy * p.z) := by
    simp [Shape3.linRaw, rowMajor]
    ring
  rw [Shape3.lin_eq_linRaw_mod, hraw]
  exact Nat.mod_eq_of_lt (lt_trans (rowMajor_bound h1 h2 h3) h)

theorem rowMajor_lawful {sx sy sz : Nat} (h : sx * sy * sz < U32M) :
    (rowMajor sx sy sz).Lawful := by
  constructor
  · exact h
  · intro p hp
    obtain ⟨h1, h2, h3⟩ := hp
    simp only [rowMajor] at h1 h2 h3 ⊢
    calc p.x * 1 + p.y * sx + p.z * (sx * sy) = p.x + sx * (p.y + sy * p.z) := by ring
      _ < sx * sy * sz := rowMajor_bound h1 h2 h3
  · intro p hp
    obtain ⟨h1, h2, h3⟩ := hp
    simp only [rowMajor] at h1 h2 h3
    have hxpos : 1 ≤ sx := by omega
    have hypos : 1 ≤ sy := by omega
    rw [rowMajor_lin_closed h p h1 h2 h3]
    have e1 : (p.x + sx * (p.y + sy * p.z)) % sx = p.x := by
      rw [Nat.add_mul_mod_self_left]
      exact Nat.mod_eq_of_lt h1
    have e2 : (p.x + sx * (p.y + sy * p.z)) / sx = p.y + sy * p.z := by
      rw [Nat.add_mul_div_left _ _ (by omega : 0 < sx), Nat.div_eq_of_lt h1]
      omega
    have e3 : (p.x + sx * (p.y + sy * p.z)) / (sx * sy) = p.z := by
      have hsplit : p.x + sx * (p.y + sy * p.z) = (p.x + sx * p.y) + (sx * sy) * p.z := by
        ring
      rw [hsplit, Nat.add_mul_div_left _ _ (by positivity : 0 < sx * sy)]
      have hsmall : (p.x + sx * p.y) / (sx * sy) = 0 := by
        apply Nat.div_eq_of_lt
        calc p.x + sx * p.y < sx + sx * p.y := by omega
          _ = sx * (p.y + 1) := by ring
          _ ≤ sx * sy := Nat.mul_le_mul_left sx (by omega)
      omega
    show P3.mk _ _ _ = p
    cases p
    simp only [P3.mk.injEq]
    refine ⟨e1, ?_, e3⟩
    rw [e2, Nat.add_mul_mod_self_left]
    exact Nat.mod_eq_of_lt h2

/-! Extent iteration facts. -/

theorem mem_rangeFrom {a n m : Nat} : m ∈ rangeFrom a n ↔ a ≤ m ∧ m < a + n := by
  simp only [rangeFrom, List.mem_map, List.mem_range]
  constructor
  · rintro ⟨i, hi, rfl⟩
    omega
  · rintro ⟨h1, h2⟩
    exact ⟨m - a, by omega, by omega⟩

theorem rangeFrom_nodup (a n : Nat) : (rangeFrom a n).Nodup := by
  refine List.Nodup.map ?_ (List.nodup_range n)
  intro i j h
  have h2 : a + i = a + j := h
  omega

theorem mem_iter3 {e : ExtentN} {p : P3} : p ∈ e.iter3 ↔ e.contains p := by
  cases p with
  | mk px py pz =>
    simp only [ExtentN.iter3, List.mem_flatMap, List.mem_map, mem_rangeFrom,
      ExtentN.contains, P3.mk.injEq]
    constructor
    · rintro ⟨zz, hz, yy, hy, xx, hx, rfl, rfl, rfl⟩
      exact ⟨hx.1, hx.2, hy.1, hy.2, hz.1, hz.2⟩
    · rintro ⟨hx1, hx2, hy1, hy2, hz1, hz2⟩
      exact ⟨pz, ⟨hz1, hz2⟩, py, ⟨hy1, hy2⟩, px, ⟨hx1, hx2⟩, rfl, rfl, rfl⟩

theorem iter3_nodup (e : ExtentN) : e.iter3.Nodup := by
  unfold ExtentN.iter3
  refine List.nodup_flatMap.2 ⟨?_, ?_⟩
  · intro zz _
    refine List.nodup_flatMap.2 ⟨?_, ?_⟩
    · intro yy _
      refine List.Nodup.map ?_ (rangeFrom_nodup _ _)
      intro a b hab
      simpa [P3.mk.injEq] using hab
    · refine List.Pairwise.imp ?_ (rangeFrom_nodup e.minimum.y e.shape.y)
      intro a b hab p hpa hpb
      simp only [Function.onFun, List.mem_map] at hpa hpb
      obtain ⟨xx, _, rfl⟩ := hpa
      obtain ⟨xx2, _, heq⟩ := hpb
      simp only [P3.mk.injEq] at heq
      exact hab heq.2.1.symm
  · refine List.Pairwise.imp ?_ (rangeFrom_nodup e.minimum.z e.shape.z)
    intro a b hab p hpa hpb
    simp only [Function.onFun, List.mem_flatMap, List.mem_map] at hpa hpb
    obtain ⟨yy, _, xx, _, rfl⟩ := hpa
    obtain ⟨yy2, _, xx2, _, heq⟩ := hpb
    simp only [P3.mk.injEq] at heq
    exact hab heq.2.2.symm

/-! Integer reinterpretation and the interior extent. -/

theorem toI32_small {n : Nat} (h : n < 2147483648) : toI32 n = (n : Int) := by
  have hm : n % U32M = n := Nat.mod_eq_of_lt (by unfold U32M at *; omega)
  unfold toI32
  rw [hm, if_pos h]
  unfold U32M
  omega

theorem interiorOf_eq {qmin qmax : P3} (h1 : ∀ a : Axis, qmin.get a < qmax.get a)
    (h2 : ∀ a : Axis, qmax.get a < 2147483647) :
    interiorOf qmin qmax =
      ⟨⟨qmin.x + 1, qmin.y + 1, qmin.z + 1⟩,
        ⟨qmax.x - qmin.x - 1, qmax.y - qmin.y - 1, qmax.z - qmin.z - 1⟩⟩ := by
  have hx := h1 Axis.X
  have hy := h1 Axis.Y
  have hz := h1 Axis.Z
  have hx2 := h2 Axis.X
  have hy2 := h2 Axis.Y
  have hz2 := h2 Axis.Z
  simp only [P3.get] at hx hy hz hx2 hy2 hz2
  unfold interiorOf
  simp only [ExtentN.mk.injEq, P3.mk.injEq]
  rw [toI32_small (by omega), toI32_small (by omega), toI32_small (by omega),
    toI32_small (by omega), toI32_small (by omega), toI32_small (by omega)]
  unfold intToU32 U32M
  refine ⟨⟨?_, ?_, ?_⟩, ?_, ?_, ?_⟩ <;> omega

/-! The entry check: wrapped-arithmetic characterization. -/

theorem checkPositiveShape_false_iff {s : P3} :
    checkPositiveShape s = false ↔ ∃ a : Axis, s.get a = 0 := by
  unfold checkPositiveShape
  simp only [Bool.and_eq_false_iff, decide_eq_false_iff_not, not_not]
  constructor
  · rintro ((h | h) | h)
    exacts [⟨Axis.X, h⟩, ⟨Axis.Y, h⟩, ⟨Axis.Z, h⟩]
  · rintro ⟨a, ha⟩
    cases a
    · exact Or.inl (Or.inl ha)
    · exact Or.inl (Or.inr ha)
    · exact Or.inr ha

theorem assertInBounds_false_iff (len : Nat) (sh : Shape3) (qmin qmax : P3) :
    assertInBounds len sh qmin qmax = false ↔
      (len < sh.size ∨ (∃ a : Axis, sh.dims.get a = 0) ∨
        (∃ a : Axis, querySizeW qmin qmax a = 0) ∨
        (∃ a : Axis,
          wadd 0 (sh.dims.get a) < wadd (qmin.get a) (querySizeW qmin qmax a))) := by
  unfold assertInBounds isSubsetOfU ExtentN.lub extentFromMinMaxU
  simp only [Bool.and_eq_false_iff, decide_eq_false_iff_not, not_le,
    checkPositiveShape_false_iff]
  constructor
  · rintro (((h | h) | h) | h)
    · exact Or.inl h
    · exact Or.inr (Or.inl h)
    · obtain ⟨a, ha⟩ := h
      refine Or.inr (Or.inr (Or.inl ⟨a, ?_⟩))
      cases a <;> exact ha
    · rcases h with ((((h | h) | h) | h) | h) | h
      · omega
      · omega
      · omega
      · exact Or.inr (Or.inr (Or.inr ⟨Axis.X, h⟩))
      · exact Or.inr (Or.inr (Or.inr ⟨Axis.Y, h⟩))
      · exact Or.inr (Or.inr (Or.inr ⟨Axis.Z, h⟩))
  · rintro (h | ⟨a, ha⟩ | ⟨a, ha⟩ | ⟨a, ha⟩)
    · exact Or.inl (Or.inl (Or.inl h))
    · exact Or.inl (Or.inl (Or.inr ⟨a, ha⟩))
    · refine Or.inl (Or.inr ⟨a, ?_⟩)
      cases a <;> exact ha
    · refine Or.inr ?_
      cases a
      · exact Or.inl (Or.inl (Or.inr ha))
      · exact Or.inl (Or.inr ha)
      · exact Or.inr ha

/-! Claims C2, C3, C8, C9. -/

/-- C2: for an interior cell and one face, both algorithms decide face
visibility from the pair (cell voxel, facing-neighbor voxel) by the same
rule: the greedy face_needs_mesh (with the cell not yet visited) equals the
simple algorithm's decision (cell non-empty and simpleFaceRule), and both
fire exactly when the neighbor is Empty and the cell non-Empty, or the
neighbor is Translucent and the cell Opaque; a face is never emitted over
an Opaque neighbor, between two Translucent voxels, or from an Empty
cell. -/
theorem claim2_face_rule {α M N : Type} (vt : VoxelType α M N) (a b : α)
    (stride vo : Nat) (voxels : Nat → α) (visited : Nat → Bool)
    (hb : voxels (wadd stride vo) = b) (hv : visited stride = false) :
    (faceNeedsMesh vt a stride vo voxels visited =
      (decide (vt.vis a ≠ VoxelVisibility.Empty) && simpleFaceRule vt a b)) ∧
    (faceNeedsMesh vt a stride vo voxels visited = true ↔
      ((vt.vis b = VoxelVisibility.Empty ∧ vt.vis a ≠ VoxelVisibility.Empty) ∨
        (vt.vis b = VoxelVisibility.Translucent ∧ vt.vis a = VoxelVisibility.Opaque))) ∧
    (vt.vis b = VoxelVisibility.Opaque →
      faceNeedsMesh vt a stride vo voxels visited = false) ∧
    (vt.vis a = VoxelVisibility.Translucent → vt.vis b = VoxelVisibility.Translucent →
      faceNeedsMesh vt a stride vo voxels visited = false) ∧
    (vt.vis a = VoxelVisibility.Empty →
      faceNeedsMesh vt a stride vo voxels visited = false) := by
  subst hb
  unfold faceNeedsMesh simpleFaceRule
  rcases hA : vt.vis a <;> rcases hB : vt.vis (voxels (wadd stride vo)) <;>
    simp [hv, hA, hB]

/-- Witness for C2 at a concrete input: an Opaque voxel over an Empty
neighbor produces a face. -/
theorem claim2_face_rule_witness :
    faceNeedsMesh demoVT VoxelVisibility.Opaque 0 0 (fun _ => VoxelVisibility.Empty)
      (fun _ => false) = true := by
  have h := claim2_face_rule demoVT VoxelVisibility.Opaque VoxelVisibility.Empty 0 0
    (fun _ => VoxelVisibility.Empty) (fun _ => false) rfl rfl
  exact h.2.1.2 (Or.inl ⟨rfl, by decide⟩)

/-- C3 counterexample: at shape dims 6x6x6, buffer length 216, min (3,0,0),
max (1,5,5), the query extent has non-positive size on the x axis in exact
integer arithmetic, so the claim demands a panic; but the u32 computation
wraps (size becomes 2^32 - 1, positive, and the wrapped least upper bound 2
is below 6), so assert_in_bounds accepts the call. -/
theorem claim3_cex :
    specQueryNonpositive ⟨3, 0, 0⟩ ⟨1, 5, 5⟩ ∧
    assertInBounds 216 (rowMajor 6 6 6) ⟨3, 0, 0⟩ ⟨1, 5, 5⟩ = true := by
  constructor
  · exact ⟨Axis.X, by decide⟩
  · decide

/-- C3 (amended): the entry check fails exactly when the buffer is shorter
than the shape's element count, or a shape dimension is zero, or the query
extent has zero size on some axis in wrapping u32 arithmetic (min = max + 1
mod 2^32), or the wrapped least upper bound of the query extent exceeds the
wrapped shape bound on some axis; and on a failure both public algorithms
abort without touching the caller's output buffer. -/
theorem claim3_amended {α M N : Type} [DecidableEq M] [DecidableEq N]
    (vt : VoxelType α M N) (voxels : Nat → α) (len : Nat) (sh : Shape3)
    (qmin qmax : P3) (faces : Fin 6 → OrientedBlockFace)
    (sout : UnitQuadBuffer) (gout : GreedyQuadsBuffer α) :
    (assertInBounds len sh qmin qmax = false ↔
      (len < sh.size ∨ (∃ a : Axis, sh.dims.get a = 0) ∨
        (∃ a : Axis, querySizeW qmin qmax a = 0) ∨
        (∃ a : Axis,
          wadd 0 (sh.dims.get a) < wadd (qmin.get a) (querySizeW qmin qmax a)))) ∧
    (assertInBounds len sh qmin qmax = false →
      visibleBlockFaces vt voxels len sh qmin qmax faces sout = none ∧
      greedyQuads vt voxels len sh qmin qmax faces gout = none) := by
  refine ⟨assertInBounds_false_iff len sh qmin qmax, fun hf => ⟨?_, ?_⟩⟩
  · unfold visibleBlockFaces
    rw [hf]
    simp
  · unfold greedyQuads
    rw [hf]
    simp

/-- C9 counterexample: min (0,0,0) and max (0,5,5) have min.x = max.x, so
the claim (min coordinate greater than or equal to max fails the check)
demands a panic, but the check accepts the call: the u32 extent has
positive size 1 on the x axis and is contained in the 6x6x6 shape. -/
theorem claim9_cex :
    (∃ a : Axis, (⟨0, 5, 5⟩ : P3).get a ≤ (⟨0, 0, 0⟩ : P3).get a) ∧
    assertInBounds 216 (rowMajor 6 6 6) ⟨0, 0, 0⟩ ⟨0, 5, 5⟩ = true := by
  decide

/-- C9 (amended): on an axis where max + 1 does not overflow u32 (max is
not u32::MAX), a max reaching or exceeding the shape's declared dimensions
fails the entry check, regardless of min; a min exceeding max by exactly
one on some axis (with min a representable u32) fails the entry check,
because the wrapped query size becomes zero.  But min equal to max does
not fail (a size-1 extent); a max equal to u32::MAX can wrap the
upper-bound computation and pass even though it exceeds the dimensions
(min (5,0,0), max (2^32-1,5,5) in a 6x6x6 shape passes); and a min
exceeding max by two or more can wrap and pass (min (3,0,0), max (1,5,5)
in a 6x6x6 shape passes). -/
theorem claim9_amended (len : Nat) (sh : Shape3) (qmin qmax : P3) :
    (∀ a : Axis, qmax.get a + 1 < U32M → sh.dims.get a ≤ qmax.get a →
      assertInBounds len sh qmin qmax = false) ∧
    (∀ a : Axis, qmin.get a = qmax.get a + 1 → qmin.get a < U32M →
      assertInBounds len sh qmin qmax = false) ∧
    assertInBounds 216 (rowMajor 6 6 6) ⟨5, 0, 0⟩ ⟨4294967295, 5, 5⟩ = true ∧
    assertInBounds 216 (rowMajor 6 6 6) ⟨3, 0, 0⟩ ⟨1, 5, 5⟩ = true := by
  refine ⟨?_, ?_, by decide, by decide⟩
  · intro a h1 h2
    refine (assertInBounds_false_iff len sh qmin qmax).2
      (Or.inr (Or.inr (Or.inr ⟨a, ?_⟩)))
    unfold querySizeW wadd wsub U32M at *
    omega
  · intro a h1 h2
    refine (assertInBounds_false_iff len sh qmin qmax).2
      (Or.inr (Or.inr (Or.inl ⟨a, ?_⟩)))
    unfold querySizeW wadd wsub U32M at *
    omega

/-- Witness for C9 (amended) at concrete inputs: max (6,5,5) reaching the
6x6x6 dims is rejected, and min (7,0,0) exceeding max (6,5,5) by one on the
x axis is rejected. -/
theorem claim9_amended_witness :
    (6 + 1 < U32M ∧ (rowMajor 6 6 6).dims.get Axis.X ≤ 6 ∧
      assertInBounds 216 (rowMajor 6 6 6) ⟨0, 0, 0⟩ ⟨6, 5, 5⟩ = false) ∧
    ((7 : Nat) = 6 + 1 ∧
      assertInBounds 216 (rowMajor 6 6 6) ⟨7, 0, 0⟩ ⟨6, 5, 5⟩ = false) :=
  ⟨⟨by decide, by decide,
    (claim9_amended 216 (rowMajor 6 6 6) ⟨0, 0, 0⟩ ⟨6, 5, 5⟩).1 Axis.X
      (by decide) (by decide)⟩,
   ⟨by decide,
    (claim9_amended 216 (rowMajor 6 6 6) ⟨7, 0, 0⟩ ⟨6, 5, 5⟩).2.1 Axis.X
      (by decide) (by decide)⟩⟩

/-- C8: quad_corners returns the 4 lattice corners in the order
[minU-minV, maxU-minV, minU-maxV, maxU-maxV], offset by width and height
times the unit vectors of the permutation's u and v axes, the whole quad
shifted one unit along the normal axis exactly when the normal sign is
positive (stated against the spec-side corner list in exact arithmetic;
the hypothesis keeps the u32 component arithmetic from wrapping). -/
theorem claim8_quad_corners {α : Type} (f : OrientedBlockFace) (q : UnorientedQuad α)
    (h : ∀ a : Axis, q.minimum.get a + q.width + q.height + 1 < U32M) :
    f.quadCorners q = specQuadCorners f q.minimum q.width q.height := by
  have hx := h Axis.X
  have hy := h Axis.Y
  have hz := h Axis.Z
  rcases q with ⟨⟨mx, my, mz⟩, w, ht, vox⟩
  simp only [P3.get] at hx hy hz
  unfold U32M at hx hy hz
  cases hp : f.permutation <;> by_cases hs : f.n_sign > 0 <;>
    simp [hp, hs, OrientedBlockFace.quadCorners, specQuadCorners, OrientedBlockFace.n,
      OrientedBlockFace.u, OrientedBlockFace.v, OrientedBlockFace.nAxis,
      OrientedBlockFace.uAxis, OrientedBlockFace.vAxis, AxisPermutation.axes,
      Axis.unitVector, P3.waddV, P3.add, P3.wscale, P3.smul, wadd, wmul, U32M,
      P3.mk.injEq] <;> omega

/-- Witness for C8 at a concrete input. -/
theorem claim8_quad_corners_witness :
    (rhYUpFaces 0).quadCorners
        (⟨⟨1, 2, 3⟩, 2, 3, VoxelVisibility.Opaque⟩ : UnorientedQuad VoxelVisibility) =
      specQuadCorners (rhYUpFaces 0) ⟨1, 2, 3⟩ 2 3 :=
  claim8_quad_corners (rhYUpFaces 0) _ (by decide)

/-! Characterization of the simple algorithm's output groups, and the
output-buffer discipline of both algorithms (C10). -/

theorem foldl_pushUnit_eval (q : UnorientedUnitQuad) (g : Fin 6 → Bool)
    (step : UnitQuadBuffer → Fin 6 → UnitQuadBuffer)
    (hstep : ∀ o i, step o i = if g i then pushUnit o i q else o)
    (L : List (Fin 6)) (hL : L.Nodup) (out : UnitQuadBuffer) (j : Fin 6) :
    (L.foldl step out) j = out j ++ (if j ∈ L ∧ g j = true then [q] else []) := by
  induction L generalizing out with
  | nil => simp
  | cons i rest ih =>
    have hnotin : i ∉ rest := (List.nodup_cons.1 hL).1
    have hrest : rest.Nodup := (List.nodup_cons.1 hL).2
    simp only [List.foldl_cons]
    rw [ih hrest, hstep]
    by_cases hij : j = i
    · subst hij
      by_cases hg : g j = true <;>
        simp [hg, hnotin, pushUnit, Function.update]
    · have hu : (if g i then pushUnit out i q else out) j = out j := by
        by_cases hg : g i = true <;>
          simp [hg, pushUnit, Function.update, hij]
      rw [hu]
      simp [hij]

theorem simpleCellStep_apply {α M N : Type} (vt : VoxelType α M N)
    (voxels : Nat → α) (sh : Shape3) (faces : Fin 6 → OrientedBlockFace)
    (out : UnitQuadBuffer) (p : P3) (j : Fin 6) :
    simpleCellStep vt voxels sh faces out p j =
      out j ++ (if simpleEmit vt voxels sh faces p j = true
        then [(⟨p⟩ : UnorientedUnitQuad)] else []) := by
  unfold simpleCellStep
  by_cases hE : vt.vis (voxels (sh.lin p)) = VoxelVisibility.Empty
  · simp [hE, simpleEmit]
  · simp only [hE, if_false]
    rw [foldl_pushUnit_eval (⟨p⟩ : UnorientedUnitQuad)
      (fun i => simpleFaceRule vt (voxels (sh.lin p))
        (voxels (wadd (sh.lin p) (sh.lin (faces i).signedNormalU32))))
      _ (fun o i => rfl) (List.finRange 6) (List.nodup_finRange 6) out j]
    simp [simpleEmit, List.mem_finRange, hE]

theorem visibleBlockFacesBody_apply {α M N : Type} (vt : VoxelType α M N)
    (voxels : Nat → α) (sh : Shape3) (faces : Fin 6 → OrientedBlockFace)
    (interior : ExtentN) (out : UnitQuadBuffer) (j : Fin 6) :
    visibleBlockFacesBody vt voxels sh faces interior out j =
      out j ++ (interior.iter3.filter
          (fun p => simpleEmit vt voxels sh faces p j)).map
        (fun p => (⟨p⟩ : UnorientedUnitQuad)) := by
  unfold visibleBlockFacesBody
  generalize interior.iter3 = l
  induction l generalizing out with
  | nil => simp
  | cons p rest ih =>
    simp only [List.foldl_cons]
    rw [ih, simpleCellStep_apply]
    by_cases hemit : simpleEmit vt voxels sh faces p j = true <;>
      simp [hemit, List.filter_cons, List.append_assoc]

theorem greedyFold_groups {α M N : Type} [DecidableEq M] [DecidableEq N]
    (vt : VoxelType α M N) (voxels : Nat → α) (sh : Shape3) (interior : ExtentN)
    (faces : Fin 6 → OrientedBlockFace) (L : List (Fin 6)) (hL : L.Nodup)
    (b : GreedyQuadsBuffer α) (i : Fin 6) :
    ((L.foldl (greedyFaceStep vt voxels sh interior faces) b).groups) i =
      if i ∈ L then (greedyQuadsForFace vt voxels sh interior (faces i) (b.groups i)).2
      else b.groups i := by
  induction L generalizing b with
  | nil => simp
  | cons j rest ih =>
    have hnotin : j ∉ rest := (List.nodup_cons.1 hL).1
    have hrest : rest.Nodup := (List.nodup_cons.1 hL).2
    simp only [List.foldl_cons]
    rw [ih hrest]
    by_cases hij : i = j
    · subst hij
      simp [hnotin, greedyFaceStep, Function.update]
    · have h1 : (greedyFaceStep vt voxels sh interior faces b j).groups i = b.groups i := by
        simp [greedyFaceStep, Function.update, hij]
      rw [h1]
      simp [hij]

theorem greedyQuads_groups {α M N : Type} [DecidableEq M] [DecidableEq N]
    (vt : VoxelType α M N) (voxels : Nat → α) (len : Nat) (sh : Shape3)
    (qmin qmax : P3) (faces : Fin 6 → OrientedBlockFace)
    (b out : GreedyQuadsBuffer α)
    (h : greedyQuads vt voxels len sh qmin qmax faces b = some out) (i : Fin 6) :
    out.groups i =
      (greedyQuadsForFace vt voxels sh (interiorOf qmin qmax) (faces i) []).2 := by
  unfold greedyQuads at h
  by_cases hA : assertInBounds len sh qmin qmax = true
  · simp only [hA, if_true] at h
    obtain rfl := Option.some.inj h.symm
    rw [greedyFold_groups vt voxels sh (interiorOf qmin qmax) faces (List.finRange 6)
      (List.nodup_finRange 6) _ i]
    simp [GreedyQuadsBuffer.reset, List.mem_finRange]
  · simp only [Bool.not_eq_true] at hA
    simp [hA] at h

/-- C10: greedy_quads resets the caller's buffer at entry (six groups
emptied, visited reallocated only when the required size differs from its
current length, reused otherwise), so its output groups do not depend on
the incoming buffer at all; visible_block_faces never clears the caller's
buffer: each output group is the caller's group with the newly emitted unit
quads appended. -/
theorem claim10_buffer_discipline {α M N : Type} [DecidableEq M] [DecidableEq N]
    (vt : VoxelType α M N) (voxels : Nat → α) (len size : Nat) (sh : Shape3)
    (qmin qmax : P3) (faces : Fin 6 → OrientedBlockFace)
    (b1 b2 : GreedyQuadsBuffer α) (s1 : UnitQuadBuffer)
    (hA : assertInBounds len sh qmin qmax = true) :
    ((b1.reset size).groups = fun _ => ([] : List (UnorientedQuad α))) ∧
    ((b1.reset size).visited =
      if size = b1.visitedLen then b1.visited else fun _ => false) ∧
    (Option.map GreedyQuadsBuffer.groups
        (greedyQuads vt voxels len sh qmin qmax faces b1) =
      Option.map GreedyQuadsBuffer.groups
        (greedyQuads vt voxels len sh qmin qmax faces b2)) ∧
    (visibleBlockFaces vt voxels len sh qmin qmax faces s1 =
      some (fun j => s1 j ++
        visibleBlockFacesBody vt voxels sh faces (interiorOf qmin qmax)
          (fun _ => []) j)) := by
  refine ⟨rfl, ?_, ?_, ?_⟩
  · by_cases h : size = b1.visitedLen <;> simp [GreedyQuadsBuffer.reset, h]
  · unfold greedyQuads
    simp only [hA, if_true]
    have h1 : ∀ b : GreedyQuadsBuffer α,
        ((List.finRange 6).foldl (greedyFaceStep vt voxels sh (interiorOf qmin qmax) faces)
            (b.reset len)).groups =
          fun i => (greedyQuadsForFace vt voxels sh (interiorOf qmin qmax) (faces i) []).2 := by
      intro b
      funext i
      rw [greedyFold_groups vt voxels sh (interiorOf qmin qmax) faces (List.finRange 6)
        (List.nodup_finRange 6) _ i]
      simp [GreedyQuadsBuffer.reset, List.mem_finRange]
    show some (((List.finRange 6).foldl (greedyFaceStep vt voxels sh (interiorOf qmin qmax) faces)
        (b1.reset len)).groups) =
      some (((List.finRange 6).foldl (greedyFaceStep vt voxels sh (interiorOf qmin qmax) faces)
        (b2.reset len)).groups)
    rw [h1 b1, h1 b2]
  · unfold visibleBlockFaces
    simp only [hA, if_true, Option.some.injEq]
    funext j
    rw [visibleBlockFacesBody_apply, visibleBlockFacesBody_apply]
    simp

/-- Witness for C10 at a concrete input: two buffers with different junk
contents give the same greedy output groups. -/
theorem claim10_witness :
    Option.map GreedyQuadsBuffer.groups
        (greedyQuads demoVT (fun _ => VoxelVisibility.Empty) 27 (rowMajor 3 3 3)
          ⟨0, 0, 0⟩ ⟨2, 2, 2⟩ rhYUpFaces
          ⟨fun _ => [⟨⟨9, 9, 9⟩, 7, 7, VoxelVisibility.Opaque⟩], fun _ => true, 5⟩) =
      Option.map GreedyQuadsBuffer.groups
        (greedyQuads demoVT (fun _ => VoxelVisibility.Empty) 27 (rowMajor 3 3 3)
          ⟨0, 0, 0⟩ ⟨2, 2, 2⟩ rhYUpFaces ⟨fun _ => [], fun _ => false, 27⟩) :=
  (claim10_buffer_discipline demoVT (fun _ => VoxelVisibility.Empty) 27 5 (rowMajor 3 3 3)
    ⟨0, 0, 0⟩ ⟨2, 2, 2⟩ rhYUpFaces
    ⟨fun _ => [⟨⟨9, 9, 9⟩, 7, 7, VoxelVisibility.Opaque⟩], fun _ => true, 5⟩
    ⟨fun _ => [], fun _ => false, 27⟩ (fun _ => []) (by decide)).2.2.1

/-! Characterization of the merge strategy: the ambient occlusion memo and
the growth loops of VoxelMerger::find_quad. -/

theorem ConsistentAO.insert {α M N : Type} {vt : VoxelType α M N} {voxels : Nat → α}
    {sh : Shape3} {vo : Nat} {m : AOMap}
    (h : ConsistentAO vt voxels sh vo m) (s cf : Nat) :
    ConsistentAO vt voxels sh vo
      (insertAO m (s, cf) (calculateAO vt voxels vo s cf sh)) := by
  intro s2 cf2 v hv
  unfold insertAO at hv
  by_cases hk : ((s2, cf2) : Nat × Nat) = (s, cf)
  · rw [if_pos hk] at hv
    injection hk with h1 h2
    subst h1
    subst h2
    exact (Option.some.inj hv).symm
  · rw [if_neg hk] at hv
    exact h s2 cf2 v hv

theorem lookupAO_of_consistent {α M N : Type} {vt : VoxelType α M N} {voxels : Nat → α}
    {sh : Shape3} {vo : Nat} {m : AOMap} (h : ConsistentAO vt voxels sh vo m)
    {s cf : Nat} (hs : (m (s, cf)).isSome) :
    lookupAO m (s, cf) = calculateAO vt voxels vo s cf sh := by
  obtain ⟨v, hv⟩ := Option.isSome_iff_exists.1 hs
  unfold lookupAO
  rw [hv]
  simpa using h s cf v hv

theorem insertAO_isSome_mono (m : AOMap) (k k2 : Nat × Nat) (v : AO4)
    (h : (m k).isSome) : ((insertAO m k2 v) k).isSome := by
  unfold insertAO
  by_cases hk : k = k2 <;> simp [hk, h]

theorem ensureAO_isSome {α M N : Type} (vt : VoxelType α M N) (voxels : Nat → α)
    (sh : Shape3) (vo : Nat) (m : AOMap) (s cf : Nat) :
    ((if (m (s, cf)).isSome then m
      else insertAO m (s, cf) (calculateAO vt voxels vo s cf sh)) (s, cf)).isSome := by
  by_cases hk : (m (s, cf)).isSome
  · simp [hk]
  · simp [hk, insertAO]

theorem ensureAO_consistent {α M N : Type} {vt : VoxelType α M N} {voxels : Nat → α}
    {sh : Shape3} {vo : Nat} {m : AOMap} (h : ConsistentAO vt voxels sh vo m)
    (s cf : Nat) :
    ConsistentAO vt voxels sh vo
      (if (m (s, cf)).isSome then m
       else insertAO m (s, cf) (calculateAO vt voxels vo s cf sh)) := by
  by_cases hk : (m (s, cf)).isSome
  · simp [hk, h]
  · simp [hk]
    exact h.insert s cf

section RowWidthChar

variable {α M N : Type} [DecidableEq M] [DecidableEq N]
variable (vt : VoxelType α M N) (voxels : Nat → α) (visited : Nat → Bool)
variable (qv : M) (qnv : N) (vo delta : Nat) (sh : Shape3) (start cf : Nat)

theorem getRowWidthGo_spec :
    ∀ (fuel k s : Nat) (m : AOMap) (w : Nat) (m2 : AOMap),
      s = strideSeq start delta k →
      ConsistentAO vt voxels sh vo m →
      getRowWidthGo vt voxels visited qv qnv vo delta sh start cf fuel k s m = (w, m2) →
      k ≤ w ∧ w ≤ k + fuel ∧
      (∀ j, k ≤ j → j < w →
        rowPredStride vt voxels visited qv qnv vo delta sh start cf j) ∧
      (w < k + fuel →
        ¬ rowPredStride vt voxels visited qv qnv vo delta sh start cf w) ∧
      ConsistentAO vt voxels sh vo m2 := by
  intro fuel
  induction fuel with
  | zero =>
    intro k s m w m2 hs hm hr
    simp only [getRowWidthGo] at hr
    injection hr with h1 h2
    subst h1
    subst h2
    refine ⟨le_refl _, by omega, ?_, by omega, hm⟩
    intro j hj1 hj2
    omega
  | succ fuel ih =>
    intro k s m w m2 hs hm hr
    rw [getRowWidthGo] at hr
    by_cases hf : faceNeedsMesh vt (voxels s) s vo voxels visited = true
    · simp only [hf, not_true, if_neg, if_false] at hr
      have hr2 := hr
      clear hr
      set m1 := (if (m (s, cf)).isSome then m
        else insertAO m (s, cf) (calculateAO vt voxels vo s cf sh)) with hm1
      set m2a := (if (m1 (start, cf)).isSome then m1
        else insertAO m1 (start, cf) (calculateAO vt voxels vo start cf sh)) with hm2a
      have hm1c : ConsistentAO vt voxels sh vo m1 := ensureAO_consistent hm s cf
      have hm2c : ConsistentAO vt voxels sh vo m2a := ensureAO_consistent hm1c start cf
      have hrow : (m2a (s, cf)).isSome := by
        by_cases hk : (m1 (start, cf)).isSome
        · rw [hm2a, if_pos hk]
          exact ensureAO_isSome vt voxels sh vo m s cf
        · rw [hm2a, if_neg hk]
          exact insertAO_isSome_mono m1 (s, cf) (start, cf) _
            (ensureAO_isSome vt voxels sh vo m s cf)
      have hst : (m2a (start, cf)).isSome := ensureAO_isSome vt voxels sh vo m1 start cf
      have hlrow : lookupAO m2a (s, cf) = calculateAO vt voxels vo s cf sh :=
        lookupAO_of_consistent hm2c hrow
      have hlst : lookupAO m2a (start, cf) = calculateAO vt voxels vo start cf sh :=
        lookupAO_of_consistent hm2c hst
      by_cases hc : (¬ (vt.mergeValue (voxels s) = qv) ∨
          ¬ (vt.mergeValueFacingNeighbour (voxels (wadd s vo)) = qnv) ∨
          ¬ (lookupAO m2a (s, cf) = lookupAO m2a (start, cf)))
      · rw [if_pos hc] at hr2
        injection hr2 with h1 h2
        subst h1
        subst h2
        refine ⟨le_refl _, by omega, ?_, ?_, hm2c⟩
        · intro j hj1 hj2
          omega
        · intro _
          unfold rowPredStride
          rw [← hs]
          rw [hlrow, hlst] at hc
          rcases hc with hc | hc | hc
          · exact fun hp => hc hp.2.1
          · exact fun hp => hc hp.2.2.1
          · exact fun hp => hc hp.2.2.2
      · rw [if_neg hc] at hr2
        push_neg at hc
        obtain ⟨hc1, hc2, hc3⟩ := hc
        have hstep : wadd s delta = strideSeq start delta (k + 1) := by
          rw [hs]
          rfl
        obtain ⟨ha1, ha2, ha3, ha4, ha5⟩ :=
          ih (k + 1) (wadd s delta) m2a w m2 hstep hm2c hr2
        refine ⟨by omega, by omega, ?_, fun hw => ha4 (by omega), ha5⟩
        intro j hj1 hj2
        rcases Nat.lt_or_ge j (k + 1) with hj | hj
        · have hjk : j = k := by omega
          subst hjk
          unfold rowPredStride
          rw [← hs]
          rw [hlrow, hlst] at hc3
          exact ⟨hf, hc1, hc2, hc3⟩
        · exact ha3 j hj hj2
    · simp only [hf, not_false_iff, if_pos] at hr
      have hr2 : (k, m) = (w, m2) := hr
      injection hr2 with h1 h2
      subst h1
      subst h2
      refine ⟨le_refl _, by omega, ?_, ?_, hm⟩
      · intro j hj1 hj2
        omega
      · intro _
        unfold rowPredStride
        rw [← hs]
        exact fun hp => hf hp.1

end RowWidthChar

section FindQuadChar

variable {α M N : Type} [DecidableEq M] [DecidableEq N]
variable (vt : VoxelType α M N) (voxels : Nat → α) (visited : Nat → Bool)
variable (qv : M) (qnv : N) (sh : Shape3)

theorem getRowWidth_spec (vo rs delta maxWidth : Nat) (m : AOMap)
    (hm : ConsistentAO vt voxels sh vo m) :
    (getRowWidth vt voxels visited qv qnv vo rs delta maxWidth sh m).1 ≤ maxWidth ∧
    (∀ j, j < (getRowWidth vt voxels visited qv qnv vo rs delta maxWidth sh m).1 →
      rowPredStride vt voxels visited qv qnv vo delta sh rs
        (getFaceIndex sh vo rs) j) ∧
    ((getRowWidth vt voxels visited qv qnv vo rs delta maxWidth sh m).1 < maxWidth →
      ¬ rowPredStride vt voxels visited qv qnv vo delta sh rs
        (getFaceIndex sh vo rs)
        (getRowWidth vt voxels visited qv qnv vo rs delta maxWidth sh m).1) ∧
    ConsistentAO vt voxels sh vo
      (getRowWidth vt voxels visited qv qnv vo rs delta maxWidth sh m).2 := by
  obtain ⟨h1, h2, h3, h4, h5⟩ := getRowWidthGo_spec vt voxels visited qv qnv vo delta sh
    rs (getFaceIndex sh vo rs) maxWidth 0 rs m
    (getRowWidth vt voxels visited qv qnv vo rs delta maxWidth sh m).1
    (getRowWidth vt voxels visited qv qnv vo rs delta maxWidth sh m).2
    rfl hm rfl
  refine ⟨by omega, fun j hj => h3 j (by omega) hj, fun hl => h4 (by omega), h5⟩

theorem getRowWidth_full_iff (vo rs delta w : Nat) (m : AOMap)
    (hm : ConsistentAO vt voxels sh vo m) :
    ((getRowWidth vt voxels visited qv qnv vo rs delta w sh m).1 = w ↔
      rowFull vt voxels visited qv qnv vo delta sh w rs) := by
  obtain ⟨h1, h2, h3, _⟩ := getRowWidth_spec vt voxels visited qv qnv sh vo rs delta w m hm
  constructor
  · intro he j hj
    exact h2 j (by omega)
  · intro hfull
    by_contra hne
    have hlt : (getRowWidth vt voxels visited qv qnv vo rs delta w sh m).1 < w := by omega
    exact h3 hlt (hfull _ hlt)

theorem findQuadHeightGo_spec (strides : FaceStrides) (minIndex w : Nat) :
    ∀ (fuel qh rs : Nat) (m : AOMap) (h : Nat) (m2 : AOMap),
      rs = strideSeq minIndex strides.vStride qh →
      ConsistentAO vt voxels sh strides.visibilityOffset m →
      findQuadHeightGo vt voxels visited qv qnv strides sh w fuel qh rs m = (h, m2) →
      qh ≤ h ∧ h ≤ qh + fuel ∧
      (∀ r, qh ≤ r → r < h →
        rowFull vt voxels visited qv qnv strides.visibilityOffset strides.uStride sh w
          (strideSeq minIndex strides.vStride r)) ∧
      (h < qh + fuel →
        ¬ rowFull vt voxels visited qv qnv strides.visibilityOffset strides.uStride sh w
          (strideSeq minIndex strides.vStride h)) ∧
      ConsistentAO vt voxels sh strides.visibilityOffset m2 := by
  intro fuel
  induction fuel with
  | zero =>
    intro qh rs m h m2 hs hm hr
    simp only [findQuadHeightGo] at hr
    injection hr with h1 h2
    subst h1
    subst h2
    exact ⟨le_refl _, by omega, fun r h1 h2 => by omega, by omega, hm⟩
  | succ fuel ih =>
    intro qh rs m h m2 hs hm hr
    rw [findQuadHeightGo] at hr
    have hspec := getRowWidth_spec vt voxels visited qv qnv sh strides.visibilityOffset
      rs strides.uStride w m hm
    have hiff := getRowWidth_full_iff vt voxels visited qv qnv sh strides.visibilityOffset
      rs strides.uStride w m hm
    by_cases hlt : (getRowWidth vt voxels visited qv qnv strides.visibilityOffset rs
        strides.uStride w sh m).1 < w
    · rw [if_pos hlt] at hr
      injection hr with h1 h2
      subst h1
      subst h2
      refine ⟨le_refl _, by omega, fun r h1 h2 => by omega, fun _ => ?_, hspec.2.2.2⟩
      rw [← hs]
      intro hfull
      have := hiff.2 hfull
      omega
    · rw [if_neg hlt] at hr
      have heq : (getRowWidth vt voxels visited qv qnv strides.visibilityOffset rs
          strides.uStride w sh m).1 = w := by
        have := hspec.1
        omega
      have hfull : rowFull vt voxels visited qv qnv strides.visibilityOffset
          strides.uStride sh w rs := hiff.1 heq
      have hstep : wadd rs strides.vStride = strideSeq minIndex strides.vStride (qh + 1) := by
        rw [hs]
        rfl
      obtain ⟨h1, h2, h3, h4, h5⟩ := ih (qh + 1) (wadd rs strides.vStride) _ h m2
        hstep hspec.2.2.2 hr
      refine ⟨by omega, by omega, ?_, fun hh => h4 (by omega), h5⟩
      intro r hr1 hr2
      rcases Nat.lt_or_ge r (qh + 1) with hq | hq
      · have : r = qh := by omega
        subst this
        rw [← hs]
        exact hfull
      · exact h3 r hq hr2

theorem findQuad_spec (strides : FaceStrides) (minIndex maxWidth maxHeight : Nat)
    (m : AOMap) (w h : Nat) (m2 : AOMap)
    (hm : ConsistentAO vt voxels sh strides.visibilityOffset m)
    (hr : findQuad vt minIndex maxWidth maxHeight strides voxels visited sh m =
      (w, h, m2)) :
    (w ≤ maxWidth ∧
      (∀ j, j < w →
        rowPredStride vt voxels visited
          (vt.mergeValue (voxels minIndex))
          (vt.mergeValueFacingNeighbour (voxels (wadd minIndex strides.visibilityOffset)))
          strides.visibilityOffset strides.uStride sh minIndex
          (getFaceIndex sh strides.visibilityOffset minIndex) j) ∧
      (w < maxWidth →
        ¬ rowPredStride vt voxels visited
          (vt.mergeValue (voxels minIndex))
          (vt.mergeValueFacingNeighbour (voxels (wadd minIndex strides.visibilityOffset)))
          strides.visibilityOffset strides.uStride sh minIndex
          (getFaceIndex sh strides.visibilityOffset minIndex) w)) ∧
    (1 ≤ h ∧ (1 ≤ maxHeight → h ≤ maxHeight) ∧
      (∀ r, 1 ≤ r → r < h →
        rowFull vt voxels visited (vt.mergeValue (voxels minIndex))
          (vt.mergeValueFacingNeighbour (voxels (wadd minIndex strides.visibilityOffset)))
          strides.visibilityOffset strides.uStride sh w
          (strideSeq minIndex strides.vStride r)) ∧
      (h < maxHeight →
        ¬ rowFull vt voxels visited (vt.mergeValue (voxels minIndex))
          (vt.mergeValueFacingNeighbour (voxels (wadd minIndex strides.visibilityOffset)))
          strides.visibilityOffset strides.uStride sh w
          (strideSeq minIndex strides.vStride h))) ∧
    ConsistentAO vt voxels sh strides.visibilityOffset m2 := by
  unfold findQuad at hr
  set qv2 := vt.mergeValue (voxels minIndex) with hqv
  set qnv2 := vt.mergeValueFacingNeighbour (voxels (wadd minIndex strides.visibilityOffset))
    with hqnv
  have hwspec := getRowWidth_spec vt voxels visited qv2 qnv2 sh strides.visibilityOffset
    minIndex strides.uStride maxWidth m hm
  have hw : (getRowWidth vt voxels visited qv2 qnv2 strides.visibilityOffset minIndex
      strides.uStride maxWidth sh m).1 = w := congrArg Prod.fst hr
  have hheq : (findQuadHeightGo vt voxels visited qv2 qnv2 strides sh
      (getRowWidth vt voxels visited qv2 qnv2 strides.visibilityOffset minIndex
        strides.uStride maxWidth sh m).1
      (maxHeight - 1) 1 (wadd minIndex strides.vStride)
      (getRowWidth vt voxels visited qv2 qnv2 strides.visibilityOffset minIndex
        strides.uStride maxWidth sh m).2).1 = h := congrArg (fun p => p.2.1) hr
  have hmeq : (findQuadHeightGo vt voxels visited qv2 qnv2 strides sh
      (getRowWidth vt voxels visited qv2 qnv2 strides.visibilityOffset minIndex
        strides.uStride maxWidth sh m).1
      (maxHeight - 1) 1 (wadd minIndex strides.vStride)
      (getRowWidth vt voxels visited qv2 qnv2 strides.visibilityOffset minIndex
        strides.uStride maxWidth sh m).2).2 = m2 := congrArg (fun p => p.2.2) hr
  have hinit : wadd minIndex strides.vStride = strideSeq minIndex strides.vStride 1 := rfl
  have hhr : findQuadHeightGo vt voxels visited qv2 qnv2 strides sh
      (getRowWidth vt voxels visited qv2 qnv2 strides.visibilityOffset minIndex
        strides.uStride maxWidth sh m).1
      (maxHeight - 1) 1 (wadd minIndex strides.vStride)
      (getRowWidth vt voxels visited qv2 qnv2 strides.visibilityOffset minIndex
        strides.uStride maxWidth sh m).2 = (h, m2) := by
    rw [← hheq, ← hmeq]
  obtain ⟨g1, g2, g3, g4, g5⟩ := findQuadHeightGo_spec vt voxels visited qv2 qnv2 sh
    strides minIndex
    (getRowWidth vt voxels visited qv2 qnv2 strides.visibilityOffset minIndex
      strides.uStride maxWidth sh m).1
    (maxHeight - 1) 1 (wadd minIndex strides.vStride) _ h m2 hinit hwspec.2.2.2 hhr
  rw [hw] at g3 g4
  refine ⟨⟨?_, ?_, ?_⟩, ⟨g1, by omega, g3, fun hh => g4 (by omega)⟩, g5⟩
  · rw [← hw]
    exact hwspec.1
  · intro j hj
    rw [← hw] at hj
    exact hwspec.2.1 j hj
  · intro hlt
    rw [← hw] at hlt ⊢
    exact hwspec.2.2.1 hlt

end FindQuadChar

theorem consistentAO_empty {α M N : Type} (vt : VoxelType α M N) (voxels : Nat → α)
    (sh : Shape3) (vo : Nat) : ConsistentAO vt voxels sh vo (fun _ => none) :=
  fun _ _ _ hv => by cases hv

/-- C4: every cell walked over during the width growth of find_quad has a
face that needs a mesh, the same merge value as the quad's starting cell, a
facing neighbor with the same facing-neighbour merge value as the start's,
and an identical 4-corner ambient occlusion pattern to the start cell's;
and every cell of the whole quad (all rows) has the starting cell's merge
value, so two adjacent cells with differing merge values never end up in
the same quad. -/
theorem claim4_width_merge_homogeneity {α M N : Type} [DecidableEq M] [DecidableEq N]
    (vt : VoxelType α M N) (voxels : Nat → α) (visited : Nat → Bool) (sh : Shape3)
    (strides : FaceStrides) (minIndex maxWidth maxHeight : Nat)
    (m : AOMap) (w h : Nat) (m2 : AOMap)
    (hm : ConsistentAO vt voxels sh strides.visibilityOffset m)
    (hr : findQuad vt minIndex maxWidth maxHeight strides voxels visited sh m =
      (w, h, m2)) :
    (∀ j, j < w →
      faceNeedsMesh vt (voxels (strideSeq minIndex strides.uStride j))
          (strideSeq minIndex strides.uStride j) strides.visibilityOffset voxels
          visited = true ∧
      vt.mergeValue (voxels (strideSeq minIndex strides.uStride j)) =
        vt.mergeValue (voxels minIndex) ∧
      vt.mergeValueFacingNeighbour
          (voxels (wadd (strideSeq minIndex strides.uStride j) strides.visibilityOffset)) =
        vt.mergeValueFacingNeighbour (voxels (wadd minIndex strides.visibilityOffset)) ∧
      calculateAO vt voxels strides.visibilityOffset
          (strideSeq minIndex strides.uStride j)
          (getFaceIndex sh strides.visibilityOffset minIndex) sh =
        calculateAO vt voxels strides.visibilityOffset minIndex
          (getFaceIndex sh strides.visibilityOffset minIndex) sh) ∧
    (∀ r j, r < h → j < w →
      vt.mergeValue (voxels (strideSeq (strideSeq minIndex strides.vStride r)
          strides.uStride j)) = vt.mergeValue (voxels minIndex)) := by
  obtain ⟨⟨w1, w2, w3⟩, ⟨h1, h2, h3, h4⟩, hcons⟩ :=
    findQuad_spec vt voxels visited sh strides minIndex maxWidth maxHeight m w h m2 hm hr
  constructor
  · intro j hj
    have hp := w2 j hj
    unfold rowPredStride at hp
    exact hp
  · intro r j hrh hjw
    rcases Nat.eq_zero_or_pos r with hr0 | hrpos
    · subst hr0
      have hp := w2 j hjw
      unfold rowPredStride at hp
      exact hp.2.1
    · have hp := h3 r hrpos hrh j hjw
      unfold rowPredStride at hp
      exact hp.2.1

/-- Witness for C4 at a concrete input: a 2-wide quad on the -X face of the
demo block, whose second cell matches the start cell in all four
conditions. -/
theorem claim4_witness :
    demoVT.mergeValue (demoVoxels (strideSeq 21 16 1)) =
      demoVT.mergeValue (demoVoxels 21) ∧
    faceNeedsMesh demoVT (demoVoxels (strideSeq 21 16 1)) (strideSeq 21 16 1)
      (wsub 0 1) demoVoxels (fun _ => false) = true := by
  have h := claim4_width_merge_homogeneity demoVT demoVoxels (fun _ => false)
    (rowMajor 4 4 4) ⟨1, 16, 4, wsub 0 1⟩ 21 2 2 (fun _ => none)
    (findQuad demoVT 21 2 2 ⟨1, 16, 4, wsub 0 1⟩ demoVoxels (fun _ => false)
      (rowMajor 4 4 4) (fun _ => none)).1
    (findQuad demoVT 21 2 2 ⟨1, 16, 4, wsub 0 1⟩ demoVoxels (fun _ => false)
      (rowMajor 4 4 4) (fun _ => none)).2.1
    (findQuad demoVT 21 2 2 ⟨1, 16, 4, wsub 0 1⟩ demoVoxels (fun _ => false)
      (rowMajor 4 4 4) (fun _ => none)).2.2
    (consistentAO_empty demoVT demoVoxels (rowMajor 4 4 4) (wsub 0 1)) rfl
  have h2 := h.1 1 (by decide)
  exact ⟨h2.2.1, h2.1⟩

/-- C5 counterexample: the frozen claim accepts a candidate row only if
every cell across the fixed width satisfies the width-growth predicate,
whose ambient occlusion clause (C4, spec 4.5) compares against the quad's
starting cell.  In cexVoxels, find_quad started at offset 21 (cell
(1,1,1), -x face, width 1) grows to height 2, accepting the row at offset
25 (cell (1,2,1)) even though that cell's 4-corner ambient occlusion
pattern differs from the quad starting cell's (an Opaque voxel at (0,3,1)
shades only the second row's face): get_row_width re-anchors the
comparison to each row's own first cell, so the claim as stated is false
of the code. -/
theorem claim5_cex :
    (findQuad demoVT 21 2 2 ⟨1, 16, 4, wsub 0 1⟩ cexVoxels (fun _ => false)
      (rowMajor 4 4 4) (fun _ => none)).1 = 1 ∧
    (findQuad demoVT 21 2 2 ⟨1, 16, 4, wsub 0 1⟩ cexVoxels (fun _ => false)
      (rowMajor 4 4 4) (fun _ => none)).2.1 = 2 ∧
    faceNeedsMesh demoVT (cexVoxels (strideSeq 21 4 1)) (strideSeq 21 4 1)
      (wsub 0 1) cexVoxels (fun _ => false) = true ∧
    demoVT.mergeValue (cexVoxels (strideSeq 21 4 1)) =
      demoVT.mergeValue (cexVoxels 21) ∧
    calculateAO demoVT cexVoxels (wsub 0 1) (strideSeq 21 4 1)
        (getFaceIndex (rowMajor 4 4 4) (wsub 0 1) 21) (rowMajor 4 4 4) ≠
      calculateAO demoVT cexVoxels (wsub 0 1) 21
        (getFaceIndex (rowMajor 4 4 4) (wsub 0 1) 21) (rowMajor 4 4 4) := by
  decide

/-- C5 (amended): in find_quad, the width is fixed before height growth;
the height starts at one row; a candidate row is accepted exactly when
every cell across the already-fixed width satisfies the width-growth
predicate re-anchored to that row's own first cell (face visible, merge
value and facing-neighbour merge value matching the quad's, and ambient
occlusion pattern identical to the row's first cell's — not necessarily to
the quad starting cell's); growth stops at the first failing row, and the
height is bounded by the remaining extent of the slice. -/
theorem claim5_height_growth {α M N : Type} [DecidableEq M] [DecidableEq N]
    (vt : VoxelType α M N) (voxels : Nat → α) (visited : Nat → Bool) (sh : Shape3)
    (strides : FaceStrides) (minIndex maxWidth maxHeight : Nat)
    (m : AOMap) (w h : Nat) (m2 : AOMap)
    (hm : ConsistentAO vt voxels sh strides.visibilityOffset m)
    (hr : findQuad vt minIndex maxWidth maxHeight strides voxels visited sh m =
      (w, h, m2)) :
    1 ≤ h ∧ (1 ≤ maxHeight → h ≤ maxHeight) ∧
    (∀ r, 1 ≤ r → r < h →
      rowFull vt voxels visited (vt.mergeValue (voxels minIndex))
        (vt.mergeValueFacingNeighbour (voxels (wadd minIndex strides.visibilityOffset)))
        strides.visibilityOffset strides.uStride sh w
        (strideSeq minIndex strides.vStride r)) ∧
    (h < maxHeight →
      ¬ rowFull vt voxels visited (vt.mergeValue (voxels minIndex))
        (vt.mergeValueFacingNeighbour (voxels (wadd minIndex strides.visibilityOffset)))
        strides.visibilityOffset strides.uStride sh w
        (strideSeq minIndex strides.vStride h)) := by
  obtain ⟨_, hh, _⟩ :=
    findQuad_spec vt voxels visited sh strides minIndex maxWidth maxHeight m w h m2 hm hr
  exact hh

/-- Witness for C5 at a concrete input: the demo quad has height 2 within a
bound of 2, and its second row is fully mergeable. -/
theorem claim5_witness :
    (findQuad demoVT 21 2 2 ⟨1, 16, 4, wsub 0 1⟩ demoVoxels (fun _ => false)
      (rowMajor 4 4 4) (fun _ => none)).2.1 ≤ 2 ∧
    rowFull demoVT demoVoxels (fun _ => false) (demoVT.mergeValue (demoVoxels 21))
      (demoVT.mergeValueFacingNeighbour (demoVoxels (wadd 21 (wsub 0 1))))
      (wsub 0 1) 16 (rowMajor 4 4 4)
      (findQuad demoVT 21 2 2 ⟨1, 16, 4, wsub 0 1⟩ demoVoxels (fun _ => false)
        (rowMajor 4 4 4) (fun _ => none)).1
      (strideSeq 21 4 1) := by
  have h := claim5_height_growth demoVT demoVoxels (fun _ => false)
    (rowMajor 4 4 4) ⟨1, 16, 4, wsub 0 1⟩ 21 2 2 (fun _ => none)
    (findQuad demoVT 21 2 2 ⟨1, 16, 4, wsub 0 1⟩ demoVoxels (fun _ => false)
      (rowMajor 4 4 4) (fun _ => none)).1
    (findQuad demoVT 21 2 2 ⟨1, 16, 4, wsub 0 1⟩ demoVoxels (fun _ => false)
      (rowMajor 4 4 4) (fun _ => none)).2.1
    (findQuad demoVT 21 2 2 ⟨1, 16, 4, wsub 0 1⟩ demoVoxels (fun _ => false)
      (rowMajor 4 4 4) (fun _ => none)).2.2
    (consistentAO_empty demoVT demoVoxels (rowMajor 4 4 4) (wsub 0 1)) rfl
  refine ⟨h.2.1 (by decide), ?_⟩
  exact h.2.2.1 1 (by decide) (by decide)

/-! Geometry of quads, covered cells and the shape linearization. -/

theorem Shape3.Lawful.lin_inj {sh : Shape3} (hlaw : sh.Lawful) {p q : P3}
    (hp : sh.inBox p) (hq : sh.inBox q) (h : sh.lin p = sh.lin q) : p = q := by
  rw [← hlaw.delinLin p hp, ← hlaw.delinLin q hq, h]

theorem contains_iff_get {e : ExtentN} {p : P3} :
    e.contains p ↔ ∀ a : Axis,
      e.minimum.get a ≤ p.get a ∧ p.get a < e.minimum.get a + e.shape.get a := by
  unfold ExtentN.contains
  constructor
  · rintro ⟨h1, h2, h3, h4, h5, h6⟩ a
    cases a <;> exact ⟨by assumption, by assumption⟩
  · intro h
    obtain ⟨hx1, hx2⟩ := h Axis.X
    obtain ⟨hy1, hy2⟩ := h Axis.Y
    obtain ⟨hz1, hz2⟩ := h Axis.Z
    exact ⟨hx1, hx2, hy1, hy2, hz1, hz2⟩

theorem mem_cellsOf {e : ExtentN} {p : P3} : p ∈ cellsOf e ↔ e.contains p := by
  unfold cellsOf
  rw [List.mem_toFinset, mem_iter3]

theorem cellAt_get (f : OrientedBlockFace) (c : P3) (k r : Nat) (a : Axis) :
    (cellAt f c k r).get a = c.get a + k * f.u.get a + r * f.v.get a := by
  unfold cellAt
  rw [P3.get_add, P3.get_add, P3.get_smul, P3.get_smul]
  ring

theorem cellAt_get_n (f : OrientedBlockFace) (c : P3) (k r : Nat) :
    (cellAt f c k r).get f.nAxis = c.get f.nAxis := by
  obtain ⟨h1, h2, _⟩ := f.axes_distinct
  rw [cellAt_get]
  unfold OrientedBlockFace.u OrientedBlockFace.v
  rw [Axis.get_unitVector, Axis.get_unitVector, if_neg h1, if_neg h2]
  ring

theorem cellAt_get_u (f : OrientedBlockFace) (c : P3) (k r : Nat) :
    (cellAt f c k r).get f.uAxis = c.get f.uAxis + k := by
  obtain ⟨_, _, h3⟩ := f.axes_distinct
  rw [cellAt_get]
  unfold OrientedBlockFace.u OrientedBlockFace.v
  rw [Axis.get_unitVector, Axis.get_unitVector, if_pos rfl, if_neg h3]
  ring

theorem cellAt_get_v (f : OrientedBlockFace) (c : P3) (k r : Nat) :
    (cellAt f c k r).get f.vAxis = c.get f.vAxis + r := by
  obtain ⟨_, _, h3⟩ := f.axes_distinct
  rw [cellAt_get]
  unfold OrientedBlockFace.u OrientedBlockFace.v
  rw [Axis.get_unitVector, Axis.get_unitVector, if_neg (fun h => h3 h.symm), if_pos rfl]
  ring

theorem cellAt_zero (f : OrientedBlockFace) (c : P3) : cellAt f c 0 0 = c := by
  apply P3.ext_get
  intro a
  rw [cellAt_get]
  ring

theorem cellAt_inj (f : OrientedBlockFace) (c : P3) {k r k2 r2 : Nat}
    (h : cellAt f c k r = cellAt f c k2 r2) : k = k2 ∧ r = r2 := by
  have hu := congrArg (fun p => P3.get p f.uAxis) h
  have hv := congrArg (fun p => P3.get p f.vAxis) h
  simp only [cellAt_get_u, cellAt_get_v] at hu hv
  omega

theorem mem_coveredCells {α : Type} {f : OrientedBlockFace} {q : UnorientedQuad α}
    {p : P3} :
    p ∈ coveredCells f q ↔
      ∃ k r, k < q.width ∧ r < q.height ∧ p = cellAt f q.minimum k r := by
  unfold coveredCells
  simp only [Finset.mem_image, Finset.mem_product, Finset.mem_range, Prod.exists]
  constructor
  · rintro ⟨k, r, ⟨hk, hr⟩, rfl⟩
    exact ⟨k, r, hk, hr, rfl⟩
  · rintro ⟨k, r, hk, hr, rfl⟩
    exact ⟨k, r, ⟨hk, hr⟩, rfl⟩

theorem coveredCells_card {α : Type} (f : OrientedBlockFace) (q : UnorientedQuad α) :
    (coveredCells f q).card = q.width * q.height := by
  unfold coveredCells
  rw [Finset.card_image_of_injOn, Finset.card_product, Finset.card_range,
    Finset.card_range]
  intro a _ b _ hab
  obtain ⟨h1, h2⟩ := cellAt_inj f q.minimum hab
  exact Prod.ext h1 h2

theorem coveredGroup_foldr_init {α : Type} (f : OrientedBlockFace)
    (qs : List (UnorientedQuad α)) (init : Finset P3) :
    qs.foldr (fun q s => coveredCells f q ∪ s) init = coveredGroup f qs ∪ init := by
  induction qs with
  | nil => simp [coveredGroup]
  | cons q rest ih =>
    simp only [coveredGroup, List.foldr_cons] at *
    rw [ih, Finset.union_assoc]

theorem coveredGroup_append {α : Type} (f : OrientedBlockFace)
    (qs : List (UnorientedQuad α)) (q : UnorientedQuad α) :
    coveredGroup f (qs ++ [q]) = coveredGroup f qs ∪ coveredCells f q := by
  unfold coveredGroup
  rw [List.foldr_append]
  simp only [List.foldr_cons, List.foldr_nil]
  rw [coveredGroup_foldr_init]
  congr 1
  simp

theorem mem_coveredGroup {α : Type} {f : OrientedBlockFace}
    {qs : List (UnorientedQuad α)} {p : P3} :
    p ∈ coveredGroup f qs ↔ ∃ q ∈ qs, p ∈ coveredCells f q := by
  induction qs with
  | nil => simp [coveredGroup]
  | cons q rest ih =>
    have hstep : coveredGroup f (q :: rest) = coveredCells f q ∪ coveredGroup f rest := by
      unfold coveredGroup
      simp only [List.foldr_cons]
    rw [hstep]
    simp only [Finset.mem_union, List.mem_cons]
    constructor
    · rintro (h | h)
      · exact ⟨q, Or.inl rfl, h⟩
      · obtain ⟨q2, hq2, hp⟩ := ih.1 h
        exact ⟨q2, Or.inr hq2, hp⟩
    · rintro ⟨q2, (rfl | hq2), hp⟩
      · exact Or.inl hp
      · exact Or.inr (ih.2 ⟨q2, hq2, hp⟩)

theorem strideSeq_lin (sh : Shape3) (c d : P3) (k : Nat) :
    strideSeq (sh.lin c) (sh.lin d) k = sh.lin (c.add (P3.smul k d)) := by
  induction k with
  | zero =>
    simp only [strideSeq]
    congr 1
    apply P3.ext_get
    intro a
    rw [P3.get_add, P3.get_smul]
    ring
  | succ k ih =>
    simp only [strideSeq]
    rw [ih, sh.lin_add]
    congr 1
    apply P3.ext_get
    intro a
    rw [P3.get_add, P3.get_add, P3.get_add, P3.get_smul, P3.get_smul]
    ring

/-! Face-sweep context lemmas. -/

theorem inBox_iff_get {sh : Shape3} {p : P3} :
    sh.inBox p ↔ ∀ a : Axis, p.get a < sh.dims.get a := by
  unfold Shape3.inBox
  constructor
  · rintro ⟨h1, h2, h3⟩ a
    cases a <;> assumption
  · intro h
    exact ⟨h Axis.X, h Axis.Y, h Axis.Z⟩

theorem Shape3.Lawful.dims_lt {sh : Shape3} (hlaw : sh.Lawful)
    (hpos : ∀ a : Axis, 0 < sh.dims.get a) : ∀ a : Axis, sh.dims.get a < U32M := by
  have hs := hlaw.sizeSmall
  have hx := hpos Axis.X
  have hy := hpos Axis.Y
  have hz := hpos Axis.Z
  simp only [P3.get] at hx hy hz
  have hxle : sh.dims.x ≤ sh.dims.x * sh.dims.y * sh.dims.z := by
    calc sh.dims.x = sh.dims.x * 1 * 1 := by ring
      _ ≤ sh.dims.x * sh.dims.y * sh.dims.z :=
        Nat.mul_le_mul (Nat.mul_le_mul_left _ hy) hz
  have hyle : sh.dims.y ≤ sh.dims.x * sh.dims.y * sh.dims.z := by
    calc sh.dims.y = 1 * sh.dims.y * 1 := by ring
      _ ≤ sh.dims.x * sh.dims.y * sh.dims.z :=
        Nat.mul_le_mul (Nat.mul_le_mul_right _ hx) hz
  have hzle : sh.dims.z ≤ sh.dims.x * sh.dims.y * sh.dims.z := by
    calc sh.dims.z = 1 * 1 * sh.dims.z := by ring
      _ ≤ sh.dims.x * sh.dims.y * sh.dims.z :=
        Nat.mul_le_mul (Nat.mul_le_mul hx hy) (le_refl _)
  intro a
  cases a <;> simp only [P3.get] <;> omega

theorem unitVector_le {p : P3} {a : Axis} (h : 1 ≤ p.get a) : (Axis.unitVector a).le p := by
  cases a
  · exact ⟨h, Nat.zero_le _, Nat.zero_le _⟩
  · exact ⟨Nat.zero_le _, h, Nat.zero_le _⟩
  · exact ⟨Nat.zero_le _, Nat.zero_le _, h⟩

theorem P3.waddV_eq_add {p q : P3} (hx : p.x + q.x < U32M) (hy : p.y + q.y < U32M)
    (hz : p.z + q.z < U32M) : p.waddV q = p.add q := by
  unfold P3.waddV P3.add
  rw [wadd_eq_add hx, wadd_eq_add hy, wadd_eq_add hz]

theorem lub_get (e : ExtentN) (a : Axis) :
    e.lub.get a = wadd (e.minimum.get a) (e.shape.get a) := by
  cases a <;> rfl

theorem set_three_get (f : OrientedBlockFace) (b : P3) (x y z : Nat) :
    (((b.set f.nAxis x).set f.uAxis y).set f.vAxis z).get f.nAxis = x ∧
    (((b.set f.nAxis x).set f.uAxis y).set f.vAxis z).get f.uAxis = y ∧
    (((b.set f.nAxis x).set f.uAxis y).set f.vAxis z).get f.vAxis = z := by
  obtain ⟨h1, h2, h3⟩ := f.axes_distinct
  refine ⟨?_, ?_, ?_⟩
  · rw [P3.get_set_ne _ _ h2, P3.get_set_ne _ _ h1, P3.get_set_same]
  · rw [P3.get_set_ne _ _ h3, P3.get_set_same]
  · rw [P3.get_set_same]

theorem wadd_lin_visOffset (sh : Shape3) (f : OrientedBlockFace) {p : P3}
    (hp : 1 ≤ p.get f.nAxis) :
    wadd (sh.lin p) (faceStridesOf sh f).visibilityOffset = sh.lin (nbrCell f p) := by
  unfold faceStridesOf nbrCell
  by_cases hs : f.n_sign > 0
  · simp only [hs, if_true]
    exact sh.lin_add p f.n
  · simp only [hs, if_false]
    exact sh.wadd_lin_neg (unitVector_le hp)

theorem faceNeedsMesh_cell {α M N : Type} (vt : VoxelType α M N) (voxels : Nat → α)
    (sh : Shape3) (f : OrientedBlockFace) (visited : Nat → Bool) {p : P3}
    (hp : 1 ≤ p.get f.nAxis) :
    faceNeedsMesh vt (voxels (sh.lin p)) (sh.lin p)
        (faceStridesOf sh f).visibilityOffset voxels visited =
      (!(visited (sh.lin p)) && faceVisibleCell vt voxels sh f p) := by
  unfold faceNeedsMesh faceVisibleCell
  rw [wadd_lin_visOffset sh f hp]
  rcases hv : vt.vis (voxels (sh.lin p)) <;> rcases hb : visited (sh.lin p) <;>
    rcases hn : vt.vis (voxels (sh.lin (nbrCell f p))) <;>
      simp [simpleFaceRule, hv, hb, hn]

theorem contains_mk_iff_get {m s p : P3} :
    (ExtentN.mk m s).contains p ↔
      ∀ a : Axis, m.get a ≤ p.get a ∧ p.get a < m.get a + s.get a :=
  contains_iff_get

theorem contains_quadExtent_iff (f : OrientedBlockFace) (c p : P3) (w h : Nat) :
    (ExtentN.mk c ((((P3.mk 0 0 0).set f.nAxis 1).set f.uAxis w).set f.vAxis h)).contains
        p ↔
      ∃ k r, k < w ∧ r < h ∧ p = cellAt f c k r := by
  obtain ⟨hq1, hq2, hq3⟩ := set_three_get f (P3.mk 0 0 0) 1 w h
  rw [contains_mk_iff_get]
  constructor
  · intro hcont
    obtain ⟨hn1, hn2⟩ := hcont f.nAxis
    obtain ⟨hu1, hu2⟩ := hcont f.uAxis
    obtain ⟨hv1, hv2⟩ := hcont f.vAxis
    rw [hq1] at hn2
    rw [hq2] at hu2
    rw [hq3] at hv2
    refine ⟨p.get f.uAxis - c.get f.uAxis, p.get f.vAxis - c.get f.vAxis,
      by omega, by omega, ?_⟩
    apply P3.ext_get
    intro a
    rcases f.axes_cover a with rfl | rfl | rfl
    · rw [cellAt_get_n]
      omega
    · rw [cellAt_get_u]
      omega
    · rw [cellAt_get_v]
      omega
  · rintro ⟨k, r, hk, hr, rfl⟩
    intro a
    rcases f.axes_cover a with rfl | rfl | rfl
    · rw [cellAt_get_n, hq1]
      omega
    · rw [cellAt_get_u, hq2]
      omega
    · rw [cellAt_get_v, hq3]
      omega

theorem fill3_lin_iff {sh : Shape3} (hlaw : sh.Lawful)
    (quadShape quadMin : P3) (visited : Nat → Bool)
    (hsub : ∀ c : P3, (ExtentN.mk quadMin quadShape).contains c → sh.inBox c)
    {p : P3} (hp : sh.inBox p) :
    (fill3 sh quadShape quadMin visited (sh.lin p) = true ↔
      ((ExtentN.mk quadMin quadShape).contains p ∨ visited (sh.lin p) = true)) := by
  unfold fill3
  by_cases hany : (ExtentN.mk quadMin quadShape).iter3.any
      (fun c => sh.lin c == sh.lin p) = true
  · simp only [hany, if_true, true_iff]
    left
    rw [List.any_eq_true] at hany
    obtain ⟨c, hc, hceq⟩ := hany
    rw [beq_iff_eq] at hceq
    rw [mem_iter3] at hc
    have : c = p := hlaw.lin_inj (hsub c hc) hp hceq
    subst this
    exact hc
  · simp only [hany, if_false]
    constructor
    · exact Or.inr
    · rintro (h | h)
      · exfalso
        apply hany
        rw [List.any_eq_true]
        exact ⟨p, mem_iter3.2 h, by simp⟩
      · exact h

theorem mem_visibleCells {α M N : Type} [DecidableEq M] [DecidableEq N]
    {vt : VoxelType α M N} {voxels : Nat → α} {sh : Shape3} {f : OrientedBlockFace}
    {e : ExtentN} {p : P3} :
    p ∈ visibleCells vt voxels sh f e ↔
      e.contains p ∧ faceVisibleCell vt voxels sh f p = true := by
  unfold visibleCells
  rw [Finset.mem_filter, mem_cellsOf]

section SweepStep

variable {α M N : Type} [DecidableEq M] [DecidableEq N]
variable (vt : VoxelType α M N) (voxels : Nat → α) (sh : Shape3) (f : OrientedBlockFace)
variable (imin ishape : P3)

theorem greedyProcessCell_inv
    (hlaw : sh.Lawful)
    (hlo : ∀ a : Axis, 1 ≤ imin.get a)
    (hhi : ∀ a : Axis, imin.get a + ishape.get a < sh.dims.get a)
    (k : Nat) (hk : k < ishape.get f.nAxis)
    (c : P3)
    (hcn : c.get f.nAxis = imin.get f.nAxis + k)
    (hcu1 : imin.get f.uAxis ≤ c.get f.uAxis)
    (hcu2 : c.get f.uAxis < imin.get f.uAxis + ishape.get f.uAxis)
    (hcv1 : imin.get f.vAxis ≤ c.get f.vAxis)
    (hcv2 : c.get f.vAxis < imin.get f.vAxis + ishape.get f.vAxis)
    (S : Finset P3) (st : GreedySweepState α)
    (hinv : SweepInv vt voxels sh f (ExtentN.mk imin ishape)
      (faceStridesOf sh f).visibilityOffset S st) :
    SweepInv vt voxels sh f (ExtentN.mk imin ishape)
      (faceStridesOf sh f).visibilityOffset (insert c S)
      (greedyProcessCell vt voxels sh f.nAxis f.uAxis f.vAxis (faceStridesOf sh f)
        (imin.get f.uAxis + ishape.get f.uAxis) (imin.get f.vAxis + ishape.get f.vAxis)
        st c) := by
  obtain ⟨hc1, hc2, hc3, hc4, hc5⟩ := hinv
  have hcn1 : 1 ≤ c.get f.nAxis := by
    have := hlo f.nAxis
    omega
  have hdpos : ∀ a : Axis, 0 < sh.dims.get a := by
    intro a
    have := hlo a
    have := hhi a
    omega
  have hdlt := hlaw.dims_lt hdpos
  have hint_box : ∀ p : P3, (ExtentN.mk imin ishape).contains p → sh.inBox p := by
    intro p hp
    rw [contains_mk_iff_get] at hp
    rw [inBox_iff_get]
    intro a
    have h1 := (hp a).2
    have := hhi a
    omega
  have hcint : (ExtentN.mk imin ishape).contains c := by
    rw [contains_mk_iff_get]
    intro a
    rcases f.axes_cover a with rfl | rfl | rfl
    · constructor <;> omega
    · exact ⟨hcu1, hcu2⟩
    · exact ⟨hcv1, hcv2⟩
  have hcbox : sh.inBox c := hint_box c hcint
  have hmaxW : wsub (imin.get f.uAxis + ishape.get f.uAxis) (c.get f.uAxis) =
      imin.get f.uAxis + ishape.get f.uAxis - c.get f.uAxis := by
    refine wsub_eq_sub ?_ (by omega)
    have := hhi f.uAxis
    have := hdlt f.uAxis
    omega
  have hmaxH : wsub (imin.get f.vAxis + ishape.get f.vAxis) (c.get f.vAxis) =
      imin.get f.vAxis + ishape.get f.vAxis - c.get f.vAxis := by
    refine wsub_eq_sub ?_ (by omega)
    have := hhi f.vAxis
    have := hdlt f.vAxis
    omega
  have hstride0 : ∀ j r : Nat,
      strideSeq (strideSeq (sh.lin c) (faceStridesOf sh f).vStride r)
        (faceStridesOf sh f).uStride j = sh.lin (cellAt f c j r) := by
    intro j r
    have hv : (faceStridesOf sh f).vStride = sh.lin f.v := rfl
    have hu : (faceStridesOf sh f).uStride = sh.lin f.u := rfl
    rw [hv, hu, strideSeq_lin sh c f.v r, strideSeq_lin sh _ f.u j]
    congr 1
    apply P3.ext_get
    intro a
    simp only [cellAt, P3.get_add, P3.get_smul]
    ring
  have hstrideRow : ∀ j : Nat,
      strideSeq (sh.lin c) (faceStridesOf sh f).uStride j = sh.lin (cellAt f c j 0) :=
    fun j => hstride0 j 0
  by_cases hfnm : faceNeedsMesh vt (voxels (sh.lin c)) (sh.lin c)
      (faceStridesOf sh f).visibilityOffset voxels st.visited = true
  case neg =>
    have hstep : greedyProcessCell vt voxels sh f.nAxis f.uAxis f.vAxis
        (faceStridesOf sh f) (imin.get f.uAxis + ishape.get f.uAxis)
        (imin.get f.vAxis + ishape.get f.vAxis) st c = st := by
      unfold greedyProcessCell
      rw [if_pos]
      simpa using hfnm
    rw [hstep]
    refine ⟨hc1, hc2, hc3, hc4, ?_⟩
    intro p hp hvis
    rcases Finset.mem_insert.1 hp with rfl | hpS
    · rw [faceNeedsMesh_cell vt voxels sh f st.visited hcn1] at hfnm
      simp only [Bool.and_eq_true, Bool.not_eq_true'] at hfnm
      rcases Bool.eq_false_or_eq_true (st.visited (sh.lin p)) with hv | hv
      · exact (hc2 p hcbox).1 hv
      · exact absurd ⟨hv, hvis⟩ hfnm
    · exact hc5 p hpS hvis
  case pos =>
    rcases hFQ : findQuad vt (sh.lin c)
        (wsub (imin.get f.uAxis + ishape.get f.uAxis) (c.get f.uAxis))
        (wsub (imin.get f.vAxis + ishape.get f.vAxis) (c.get f.vAxis))
        (faceStridesOf sh f) voxels st.visited sh st.aos with ⟨w, h2, m2⟩
    obtain ⟨⟨hw1, hw2, hw3⟩, ⟨hh1, hh2, hh3, hh4⟩, hcons2⟩ :=
      findQuad_spec vt voxels st.visited sh (faceStridesOf sh f) (sh.lin c) _ _
        st.aos w h2 m2 hc1 hFQ
    have hpred0 : rowPredStride vt voxels st.visited (vt.mergeValue (voxels (sh.lin c)))
        (vt.mergeValueFacingNeighbour
          (voxels (wadd (sh.lin c) (faceStridesOf sh f).visibilityOffset)))
        (faceStridesOf sh f).visibilityOffset (faceStridesOf sh f).uStride sh (sh.lin c)
        (getFaceIndex sh (faceStridesOf sh f).visibilityOffset (sh.lin c)) 0 :=
      ⟨hfnm, rfl, rfl, rfl⟩
    have hwpos : 1 ≤ w := by
      by_contra hw0
      push_neg at hw0
      have hw00 : w = 0 := by omega
      subst hw00
      refine hw3 ?_ hpred0
      rw [hmaxW]
      omega
    have hmaxHpos : 1 ≤ wsub (imin.get f.vAxis + ishape.get f.vAxis) (c.get f.vAxis) := by
      rw [hmaxH]
      omega
    have hh2b : h2 ≤ imin.get f.vAxis + ishape.get f.vAxis - c.get f.vAxis := by
      have := hh2 hmaxHpos
      rw [hmaxH] at this
      exact this
    have hw1b : w ≤ imin.get f.uAxis + ishape.get f.uAxis - c.get f.uAxis := by
      rw [hmaxW] at hw1
      exact hw1
    have hcell_int : ∀ j r : Nat, j < w → r < h2 →
        (ExtentN.mk imin ishape).contains (cellAt f c j r) := by
      intro j r hj hr
      rw [contains_mk_iff_get]
      intro a
      rcases f.axes_cover a with rfl | rfl | rfl
      · rw [cellAt_get_n]
        constructor <;> omega
      · rw [cellAt_get_u]
        constructor <;> omega
      · rw [cellAt_get_v]
        constructor <;> omega
    have hcell_fnm : ∀ j r : Nat, j < w → r < h2 →
        faceNeedsMesh vt (voxels (sh.lin (cellAt f c j r))) (sh.lin (cellAt f c j r))
          (faceStridesOf sh f).visibilityOffset voxels st.visited = true := by
      intro j r hj hr
      rcases Nat.eq_zero_or_pos r with rfl | hrpos
      · have hp := hw2 j hj
        unfold rowPredStride at hp
        rw [hstrideRow j] at hp
        exact hp.1
      · have hrow := hh3 r hrpos hr j hj
        unfold rowPredStride at hrow
        rw [hstride0 j r] at hrow
        exact hrow.1
    have hcell_facts : ∀ j r : Nat, j < w → r < h2 →
        st.visited (sh.lin (cellAt f c j r)) = false ∧
        faceVisibleCell vt voxels sh f (cellAt f c j r) = true := by
      intro j r hj hr
      have hfm := hcell_fnm j r hj hr
      have hn1 : 1 ≤ (cellAt f c j r).get f.nAxis := by
        rw [cellAt_get_n]
        exact hcn1
      rw [faceNeedsMesh_cell vt voxels sh f st.visited hn1] at hfm
      simp only [Bool.and_eq_true, Bool.not_eq_true'] at hfm
      exact hfm
    have hnewq_mem : ∀ {p : P3},
        p ∈ coveredCells f (⟨c, w, h2, voxels (sh.lin c)⟩ : UnorientedQuad α) ↔
          ∃ j r, j < w ∧ r < h2 ∧ p = cellAt f c j r := mem_coveredCells
    have hnew_not_cov : ∀ p ∈ coveredCells f
        (⟨c, w, h2, voxels (sh.lin c)⟩ : UnorientedQuad α),
        p ∉ coveredGroup f st.quads := by
      intro p hp hpc
      obtain ⟨j, r, hj, hr, rfl⟩ := hnewq_mem.1 hp
      have hbox := hint_box _ (hcell_int j r hj hr)
      have := (hc2 _ hbox).2 hpc
      rw [(hcell_facts j r hj hr).1] at this
      cases this
    have hnew_vis : coveredCells f (⟨c, w, h2, voxels (sh.lin c)⟩ : UnorientedQuad α) ⊆
        visibleCells vt voxels sh f (ExtentN.mk imin ishape) := by
      intro p hp
      obtain ⟨j, r, hj, hr, rfl⟩ := hnewq_mem.1 hp
      rw [mem_visibleCells]
      exact ⟨hcell_int j r hj hr, (hcell_facts j r hj hr).2⟩
    have hstep : greedyProcessCell vt voxels sh f.nAxis f.uAxis f.vAxis
        (faceStridesOf sh f) (imin.get f.uAxis + ishape.get f.uAxis)
        (imin.get f.vAxis + ishape.get f.vAxis) st c =
        { visited := fill3 sh
            ((((P3.mk 0 0 0).set f.nAxis 1).set f.uAxis w).set f.vAxis h2) c st.visited
          quads := st.quads ++ [⟨c, w, h2, voxels (sh.lin c)⟩]
          aos := m2 } := by
      simp only [greedyProcessCell]
      rw [if_neg (by simpa using hfnm)]
      rw [hFQ]
    rw [hstep]
    have hcovered_new : coveredGroup f (st.quads ++ [⟨c, w, h2, voxels (sh.lin c)⟩]) =
        coveredGroup f st.quads ∪
          coveredCells f (⟨c, w, h2, voxels (sh.lin c)⟩ : UnorientedQuad α) :=
      coveredGroup_append f st.quads _
    refine ⟨hcons2, ?_, ?_, ?_, ?_⟩
    · intro p hp
      have hquadsub : ∀ cq : P3,
          (ExtentN.mk c ((((P3.mk 0 0 0).set f.nAxis 1).set f.uAxis w).set
            f.vAxis h2)).contains cq → sh.inBox cq := by
        intro cq hcq
        obtain ⟨j, r, hj, hr, rfl⟩ := (contains_quadExtent_iff f c cq w h2).1 hcq
        exact hint_box _ (hcell_int j r hj hr)
      rw [fill3_lin_iff hlaw _ _ _ hquadsub hp, hcovered_new]
      rw [Finset.mem_union, contains_quadExtent_iff f c p w h2, ← hnewq_mem, hc2 p hp]
      constructor
      · rintro (h | h)
        · exact Or.inr h
        · exact Or.inl h
      · rintro (h | h)
        · exact Or.inr h
        · exact Or.inl h
    · intro q hq
      rcases List.mem_append.1 hq with hq | hq
      · exact hc3 q hq
      · rcases List.mem_singleton.1 hq with rfl
        exact hnew_vis
    · unfold areaSum at *
      rw [List.map_append, List.sum_append, hcovered_new,
        Finset.card_union_of_disjoint, coveredCells_card]
      · simp [hc4]
      · rw [Finset.disjoint_right]
        intro p hp
        exact hnew_not_cov p hp
    · intro p hp hvis
      rw [hcovered_new, Finset.mem_union]
      rcases Finset.mem_insert.1 hp with rfl | hpS
      · right
        rw [hnewq_mem]
        exact ⟨0, 0, hwpos, hh1, (cellAt_zero f p).symm⟩
      · exact Or.inl (hc5 p hpS hvis)

end SweepStep

theorem lub_mk_get (m s : P3) (a : Axis) :
    (ExtentN.mk m s).lub.get a = wadd (m.get a) (s.get a) := by
  cases a <;> rfl

section SweepSlice

variable {α M N : Type} [DecidableEq M] [DecidableEq N]
variable (vt : VoxelType α M N) (voxels : Nat → α) (sh : Shape3) (f : OrientedBlockFace)
variable (imin ishape : P3)

theorem greedySweepSlice_inv
    (hlaw : sh.Lawful)
    (hlo : ∀ a : Axis, 1 ≤ imin.get a)
    (hhi : ∀ a : Axis, imin.get a + ishape.get a < sh.dims.get a)
    (k : Nat) (hk : k < ishape.get f.nAxis)
    (S : Finset P3) (st : GreedySweepState α)
    (hinv : SweepInv vt voxels sh f (ExtentN.mk imin ishape)
      (faceStridesOf sh f).visibilityOffset S st) :
    SweepInv vt voxels sh f (ExtentN.mk imin ishape)
      (faceStridesOf sh f).visibilityOffset
      (S ∪ cellsOf (ExtentN.mk (imin.add (P3.smul k f.n))
        ((((P3.mk 0 0 0).set f.nAxis 1).set f.uAxis (ishape.get f.uAxis)).set f.vAxis
          (ishape.get f.vAxis))))
      (greedySweepSlice vt voxels sh f.nAxis f.uAxis f.vAxis (faceStridesOf sh f) st
        (ExtentN.mk (imin.add (P3.smul k f.n))
          ((((P3.mk 0 0 0).set f.nAxis 1).set f.uAxis (ishape.get f.uAxis)).set f.vAxis
            (ishape.get f.vAxis)))) := by
  obtain ⟨hs1, hs2, hs3⟩ :=
    set_three_get f (P3.mk 0 0 0) 1 (ishape.get f.uAxis) (ishape.get f.vAxis)
  obtain ⟨hd1, hd2, hd3⟩ := f.axes_distinct
  have hdpos : ∀ a : Axis, 0 < sh.dims.get a := by
    intro a
    have := hlo a
    have := hhi a
    omega
  have hdlt := hlaw.dims_lt hdpos
  have hminu : (imin.add (P3.smul k f.n)).get f.uAxis = imin.get f.uAxis := by
    rw [P3.get_add, P3.get_smul]
    unfold OrientedBlockFace.n
    rw [Axis.get_unitVector, if_neg (fun h => hd1 h.symm)]
    ring
  have hminv : (imin.add (P3.smul k f.n)).get f.vAxis = imin.get f.vAxis := by
    rw [P3.get_add, P3.get_smul]
    unfold OrientedBlockFace.n
    rw [Axis.get_unitVector, if_neg (fun h => hd2 h.symm)]
    ring
  have hminn : (imin.add (P3.smul k f.n)).get f.nAxis = imin.get f.nAxis + k := by
    rw [P3.get_add, P3.get_smul]
    unfold OrientedBlockFace.n
    rw [Axis.get_unitVector, if_pos rfl]
    ring
  have hlubU : (ExtentN.mk (imin.add (P3.smul k f.n))
      ((((P3.mk 0 0 0).set f.nAxis 1).set f.uAxis (ishape.get f.uAxis)).set f.vAxis
        (ishape.get f.vAxis))).lub.get f.uAxis =
      imin.get f.uAxis + ishape.get f.uAxis := by
    rw [lub_mk_get, hminu, hs2]
    refine wadd_eq_add ?_
    have := hhi f.uAxis
    have := hdlt f.uAxis
    omega
  have hlubV : (ExtentN.mk (imin.add (P3.smul k f.n))
      ((((P3.mk 0 0 0).set f.nAxis 1).set f.uAxis (ishape.get f.uAxis)).set f.vAxis
        (ishape.get f.vAxis))).lub.get f.vAxis =
      imin.get f.vAxis + ishape.get f.vAxis := by
    rw [lub_mk_get, hminv, hs3]
    refine wadd_eq_add ?_
    have := hhi f.vAxis
    have := hdlt f.vAxis
    omega
  have hcellcond : ∀ c : P3,
      (ExtentN.mk (imin.add (P3.smul k f.n))
        ((((P3.mk 0 0 0).set f.nAxis 1).set f.uAxis (ishape.get f.uAxis)).set f.vAxis
          (ishape.get f.vAxis))).contains c →
      c.get f.nAxis = imin.get f.nAxis + k ∧
      imin.get f.uAxis ≤ c.get f.uAxis ∧
      c.get f.uAxis < imin.get f.uAxis + ishape.get f.uAxis ∧
      imin.get f.vAxis ≤ c.get f.vAxis ∧
      c.get f.vAxis < imin.get f.vAxis + ishape.get f.vAxis := by
    intro c hc
    rw [contains_mk_iff_get] at hc
    have hn := hc f.nAxis
    have hu := hc f.uAxis
    have hv := hc f.vAxis
    rw [hminn, hs1] at hn
    rw [hminu, hs2] at hu
    rw [hminv, hs3] at hv
    exact ⟨by omega, hu.1, hu.2, hv.1, hv.2⟩
  simp only [greedySweepSlice]
  rw [hlubU, hlubV]
  have hgen : ∀ (L : List P3),
      (∀ c ∈ L,
        c.get f.nAxis = imin.get f.nAxis + k ∧
        imin.get f.uAxis ≤ c.get f.uAxis ∧
        c.get f.uAxis < imin.get f.uAxis + ishape.get f.uAxis ∧
        imin.get f.vAxis ≤ c.get f.vAxis ∧
        c.get f.vAxis < imin.get f.vAxis + ishape.get f.vAxis) →
      ∀ (S2 : Finset P3) (st2 : GreedySweepState α),
      SweepInv vt voxels sh f (ExtentN.mk imin ishape)
        (faceStridesOf sh f).visibilityOffset S2 st2 →
      SweepInv vt voxels sh f (ExtentN.mk imin ishape)
        (faceStridesOf sh f).visibilityOffset (S2 ∪ L.toFinset)
        (L.foldl (greedyProcessCell vt voxels sh f.nAxis f.uAxis f.vAxis
          (faceStridesOf sh f) (imin.get f.uAxis + ishape.get f.uAxis)
          (imin.get f.vAxis + ishape.get f.vAxis)) st2) := by
    intro L
    induction L with
    | nil =>
      intro _ S2 st2 h
      simpa using h
    | cons c L ih =>
      intro hL S2 st2 h
      simp only [List.foldl_cons, List.toFinset_cons]
      obtain ⟨he1, he2, he3, he4, he5⟩ := hL c (List.mem_cons_self c L)
      have hstep := greedyProcessCell_inv vt voxels sh f imin ishape hlaw hlo hhi
        k hk c he1 he2 he3 he4 he5 S2 st2 h
      have hrest := ih (fun c2 hc2 => hL c2 (List.mem_cons_of_mem c hc2))
        (insert c S2) _ hstep
      rw [Finset.insert_union] at hrest
      rw [Finset.union_insert]
      exact hrest
  have hres := hgen ((ExtentN.mk (imin.add (P3.smul k f.n))
      ((((P3.mk 0 0 0).set f.nAxis 1).set f.uAxis (ishape.get f.uAxis)).set f.vAxis
        (ishape.get f.vAxis))).iter3)
    (fun c hc => hcellcond c (mem_iter3.1 hc)) S st hinv
  exact hres

end SweepSlice

section FaceFold

variable {α M N : Type} [DecidableEq M] [DecidableEq N]
variable (vt : VoxelType α M N) (voxels : Nat → α) (sh : Shape3) (f : OrientedBlockFace)
variable (imin ishape : P3)

theorem greedySliceStep_mk (nAx uAx vAx : Axis) (strides : FaceStrides) (nVec : P3)
    (e : ExtentN) (st : GreedySweepState α) :
    greedySliceStep vt voxels sh nAx uAx vAx strides nVec (e, st) =
      (ExtentN.mk (e.minimum.waddV nVec) e.shape,
       greedySweepSlice vt voxels sh nAx uAx vAx strides st e) := rfl

theorem greedySliceFold_inv
    (hlaw : sh.Lawful)
    (hlo : ∀ a : Axis, 1 ≤ imin.get a)
    (hhi : ∀ a : Axis, imin.get a + ishape.get a < sh.dims.get a)
    (n : Nat) (hn : n ≤ ishape.get f.nAxis) :
    ((List.range n).foldl
      (fun p _ => greedySliceStep vt voxels sh f.nAxis f.uAxis f.vAxis
        (faceStridesOf sh f) f.n p)
      (ExtentN.mk imin
        ((((P3.mk 0 0 0).set f.nAxis 1).set f.uAxis (ishape.get f.uAxis)).set f.vAxis
          (ishape.get f.vAxis)),
        (⟨fun _ => false, [], fun _ => none⟩ : GreedySweepState α))).1 =
      ExtentN.mk (imin.add (P3.smul n f.n))
        ((((P3.mk 0 0 0).set f.nAxis 1).set f.uAxis (ishape.get f.uAxis)).set f.vAxis
          (ishape.get f.vAxis)) ∧
    SweepInv vt voxels sh f (ExtentN.mk imin ishape)
      (faceStridesOf sh f).visibilityOffset
      ((Finset.range n).biUnion (fun k =>
        cellsOf (ExtentN.mk (imin.add (P3.smul k f.n))
          ((((P3.mk 0 0 0).set f.nAxis 1).set f.uAxis (ishape.get f.uAxis)).set f.vAxis
            (ishape.get f.vAxis)))))
      ((List.range n).foldl
        (fun p _ => greedySliceStep vt voxels sh f.nAxis f.uAxis f.vAxis
          (faceStridesOf sh f) f.n p)
        (ExtentN.mk imin
          ((((P3.mk 0 0 0).set f.nAxis 1).set f.uAxis (ishape.get f.uAxis)).set f.vAxis
            (ishape.get f.vAxis)),
          (⟨fun _ => false, [], fun _ => none⟩ : GreedySweepState α))).2 := by
  induction n with
  | zero =>
    simp only [List.range_zero, List.foldl_nil, Finset.range_zero, Finset.biUnion_empty]
    refine ⟨?_, ?_, ?_, ?_, ?_, ?_⟩
    · have h0 : imin.add (P3.smul 0 f.n) = imin := by
        apply P3.ext_get
        intro a
        rw [P3.get_add, P3.get_smul]
        ring
      rw [h0]
    · exact consistentAO_empty vt voxels sh _
    · intro p _
      simp [coveredGroup]
    · intro q hq
      simp at hq
    · simp [areaSum, coveredGroup]
    · intro p hp
      simp at hp
  | succ n ih =>
    have hn' : n ≤ ishape.get f.nAxis := Nat.le_of_succ_le hn
    obtain ⟨h1, h2⟩ := ih hn'
    have hdpos : ∀ a : Axis, 0 < sh.dims.get a := by
      intro a
      have := hlo a
      have := hhi a
      omega
    have hdlt := hlaw.dims_lt hdpos
    have hsmall : ∀ a : Axis,
        (imin.add (P3.smul n f.n)).get a + f.n.get a < U32M := by
      intro a
      rw [P3.get_add, P3.get_smul]
      unfold OrientedBlockFace.n
      rw [Axis.get_unitVector]
      have h3 := hhi a
      have h4 := hdlt a
      by_cases hA : a = f.nAxis
      · rw [if_pos hA]
        have h5 : n + 1 ≤ ishape.get a := by
          rw [hA]
          exact hn
        omega
      · rw [if_neg hA]
        omega
    have hext : (imin.add (P3.smul n f.n)).waddV f.n =
        imin.add (P3.smul (n + 1) f.n) := by
      rw [P3.waddV_eq_add (hsmall Axis.X) (hsmall Axis.Y) (hsmall Axis.Z)]
      apply P3.ext_get
      intro a
      rw [P3.get_add, P3.get_add, P3.get_add, P3.get_smul, P3.get_smul]
      ring
    have hpair : (List.range n).foldl
        (fun p _ => greedySliceStep vt voxels sh f.nAxis f.uAxis f.vAxis
          (faceStridesOf sh f) f.n p)
        (ExtentN.mk imin
          ((((P3.mk 0 0 0).set f.nAxis 1).set f.uAxis (ishape.get f.uAxis)).set f.vAxis
            (ishape.get f.vAxis)),
          (⟨fun _ => false, [], fun _ => none⟩ : GreedySweepState α)) =
        (ExtentN.mk (imin.add (P3.smul n f.n))
          ((((P3.mk 0 0 0).set f.nAxis 1).set f.uAxis (ishape.get f.uAxis)).set f.vAxis
            (ishape.get f.vAxis)),
          ((List.range n).foldl
            (fun p _ => greedySliceStep vt voxels sh f.nAxis f.uAxis f.vAxis
              (faceStridesOf sh f) f.n p)
            (ExtentN.mk imin
              ((((P3.mk 0 0 0).set f.nAxis 1).set f.uAxis (ishape.get f.uAxis)).set f.vAxis
                (ishape.get f.vAxis)),
              (⟨fun _ => false, [], fun _ => none⟩ : GreedySweepState α))).2) := by
      rw [← h1]
    rw [List.range_succ, List.foldl_append, List.foldl_cons, List.foldl_nil, hpair]
    simp only [greedySliceStep_mk]
    constructor
    · rw [hext]
    · rw [Finset.range_succ, Finset.biUnion_insert, Finset.union_comm]
      exact greedySweepSlice_inv vt voxels sh f imin ishape hlaw hlo hhi n hn _ _ h2

end FaceFold

section FaceCover

variable {α M N : Type} [DecidableEq M] [DecidableEq N]
variable (vt : VoxelType α M N) (voxels : Nat → α) (sh : Shape3) (f : OrientedBlockFace)
variable (imin ishape : P3)

theorem slices_cover (f : OrientedBlockFace) (imin ishape : P3) :
    ((Finset.range (ishape.get f.nAxis)).biUnion (fun k =>
      cellsOf (ExtentN.mk (imin.add (P3.smul k f.n))
        ((((P3.mk 0 0 0).set f.nAxis 1).set f.uAxis (ishape.get f.uAxis)).set f.vAxis
          (ishape.get f.vAxis))))) = cellsOf (ExtentN.mk imin ishape) := by
  obtain ⟨hd1, hd2, hd3⟩ := f.axes_distinct
  obtain ⟨hs1, hs2, hs3⟩ :=
    set_three_get f (P3.mk 0 0 0) 1 (ishape.get f.uAxis) (ishape.get f.vAxis)
  have hminget : ∀ (k : Nat) (a : Axis),
      (imin.add (P3.smul k f.n)).get a =
        imin.get a + (if a = f.nAxis then k else 0) := by
    intro k a
    rw [P3.get_add, P3.get_smul]
    unfold OrientedBlockFace.n
    rw [Axis.get_unitVector]
    by_cases hA : a = f.nAxis
    · rw [if_pos hA, if_pos hA]
      ring
    · rw [if_neg hA, if_neg hA]
      ring
  ext p
  simp only [Finset.mem_biUnion, Finset.mem_range, mem_cellsOf, contains_mk_iff_get]
  constructor
  · rintro ⟨k, hk, hc⟩
    intro a
    have hca := hc a
    rw [hminget] at hca
    rcases f.axes_cover a with hA | hA | hA
    · rw [if_pos hA] at hca
      rw [hA] at hca ⊢
      rw [hs1] at hca
      omega
    · have hA2 : a ≠ f.nAxis := by
        rw [hA]
        exact fun h => hd1 h.symm
      rw [if_neg hA2] at hca
      rw [hA] at hca ⊢
      rw [hs2] at hca
      omega
    · have hA2 : a ≠ f.nAxis := by
        rw [hA]
        exact fun h => hd2 h.symm
      rw [if_neg hA2] at hca
      rw [hA] at hca ⊢
      rw [hs3] at hca
      omega
  · intro hc
    refine ⟨p.get f.nAxis - imin.get f.nAxis, ?_, ?_⟩
    · have := hc f.nAxis
      omega
    · intro a
      have hca := hc a
      rw [hminget]
      rcases f.axes_cover a with hA | hA | hA
      · rw [if_pos hA]
        rw [hA] at hca ⊢
        rw [hs1]
        have := hc f.nAxis
        omega
      · have hA2 : a ≠ f.nAxis := by
          rw [hA]
          exact fun h => hd1 h.symm
        rw [if_neg hA2]
        rw [hA] at hca ⊢
        rw [hs2]
        omega
      · have hA2 : a ≠ f.nAxis := by
          rw [hA]
          exact fun h => hd2 h.symm
        rw [if_neg hA2]
        rw [hA] at hca ⊢
        rw [hs3]
        omega

theorem greedyQuadsForFace_cover
    (hlaw : sh.Lawful)
    (hlo : ∀ a : Axis, 1 ≤ imin.get a)
    (hhi : ∀ a : Axis, imin.get a + ishape.get a < sh.dims.get a) :
    coveredGroup f (greedyQuadsForFace vt voxels sh (ExtentN.mk imin ishape) f []).2 =
      visibleCells vt voxels sh f (ExtentN.mk imin ishape) ∧
    areaSum (greedyQuadsForFace vt voxels sh (ExtentN.mk imin ishape) f []).2 =
      (visibleCells vt voxels sh f (ExtentN.mk imin ishape)).card := by
  have hres : (greedyQuadsForFace vt voxels sh (ExtentN.mk imin ishape) f []).2 =
      ((List.range (ishape.get f.nAxis)).foldl
        (fun p _ => greedySliceStep vt voxels sh f.nAxis f.uAxis f.vAxis
          (faceStridesOf sh f) f.n p)
        (ExtentN.mk imin
          ((((P3.mk 0 0 0).set f.nAxis 1).set f.uAxis (ishape.get f.uAxis)).set f.vAxis
            (ishape.get f.vAxis)),
          (⟨fun _ => false, [], fun _ => none⟩ : GreedySweepState α))).2.quads := rfl
  obtain ⟨h1, hcons, hvis, hsub, harea, hproc⟩ :=
    greedySliceFold_inv vt voxels sh f imin ishape hlaw hlo hhi
      (ishape.get f.nAxis) le_rfl
  rw [slices_cover] at hproc
  have heq : coveredGroup f
      (greedyQuadsForFace vt voxels sh (ExtentN.mk imin ishape) f []).2 =
      visibleCells vt voxels sh f (ExtentN.mk imin ishape) := by
    rw [hres]
    apply Finset.Subset.antisymm
    · intro p hp
      obtain ⟨q, hq, hpq⟩ := mem_coveredGroup.1 hp
      exact hsub q hq hpq
    · intro p hp
      have hp2 := mem_visibleCells.1 hp
      have hp3 : p ∈ cellsOf (ExtentN.mk imin ishape) := mem_cellsOf.2 hp2.1
      exact hproc p hp3 hp2.2
  refine ⟨heq, ?_⟩
  rw [hres] at heq ⊢
  rw [harea, heq]

end FaceCover

theorem Shape3.lin_wnegV (sh : Shape3) (q : P3) :
    sh.lin ⟨wsub 0 q.x, wsub 0 q.y, wsub 0 q.z⟩ = wsub 0 (sh.lin q) := by
  obtain ⟨kx, hkx⟩ : U32M ∣ (wsub 0 q.x + q.x) :=
    Nat.dvd_of_mod_eq_zero (by unfold wsub U32M; omega)
  obtain ⟨ky, hky⟩ : U32M ∣ (wsub 0 q.y + q.y) :=
    Nat.dvd_of_mod_eq_zero (by unfold wsub U32M; omega)
  obtain ⟨kz, hkz⟩ : U32M ∣ (wsub 0 q.z + q.z) :=
    Nat.dvd_of_mod_eq_zero (by unfold wsub U32M; omega)
  have hL : (sh.lin ⟨wsub 0 q.x, wsub 0 q.y, wsub 0 q.z⟩ + sh.lin q) % U32M = 0 := by
    rw [Shape3.lin_eq_linRaw_mod, Shape3.lin_eq_linRaw_mod, ← Nat.add_mod]
    have hsum : sh.linRaw ⟨wsub 0 q.x, wsub 0 q.y, wsub 0 q.z⟩ + sh.linRaw q =
        U32M * (kx * sh.sX + ky * sh.sY + kz * sh.sZ) := by
      unfold Shape3.linRaw
      dsimp only
      have hr : wsub 0 q.x * sh.sX + wsub 0 q.y * sh.sY + wsub 0 q.z * sh.sZ +
          (q.x * sh.sX + q.y * sh.sY + q.z * sh.sZ) =
          (wsub 0 q.x + q.x) * sh.sX + (wsub 0 q.y + q.y) * sh.sY +
            (wsub 0 q.z + q.z) * sh.sZ := by
        ring
      rw [hr, hkx, hky, hkz]
      ring
    rw [hsum, Nat.mul_mod_right]
  have hR : (wsub 0 (sh.lin q) + sh.lin q) % U32M = 0 := by
    have h1 : sh.lin q < U32M := sh.lin_lt q
    unfold wsub U32M at *
    omega
  have h2 : sh.lin ⟨wsub 0 q.x, wsub 0 q.y, wsub 0 q.z⟩ < U32M := sh.lin_lt _
  have h3 : wsub 0 (sh.lin q) < U32M := by
    unfold wsub U32M
    omega
  unfold U32M at hL hR h2 h3
  omega

theorem wadd_lin_snU32 (sh : Shape3) (f : OrientedBlockFace) {p : P3}
    (hp : 1 ≤ p.get f.nAxis) :
    wadd (sh.lin p) (sh.lin f.signedNormalU32) = sh.lin (nbrCell f p) := by
  unfold OrientedBlockFace.signedNormalU32 nbrCell
  by_cases hs : f.n_sign > 0
  · simp only [hs, if_true]
    exact sh.lin_add p f.n
  · simp only [hs, if_false]
    rw [sh.lin_wnegV]
    exact sh.wadd_lin_neg (unitVector_le hp)

theorem simpleEmit_eq_faceVisibleCell {α M N : Type} (vt : VoxelType α M N)
    (voxels : Nat → α) (sh : Shape3) (faces : Fin 6 → OrientedBlockFace)
    (p : P3) (j : Fin 6) (hp : 1 ≤ p.get (faces j).nAxis) :
    simpleEmit vt voxels sh faces p j = faceVisibleCell vt voxels sh (faces j) p := by
  simp only [simpleEmit, faceVisibleCell]
  rw [wadd_lin_snU32 sh (faces j) hp]

theorem simpleGroup_spec {α M N : Type} [DecidableEq M] [DecidableEq N]
    (vt : VoxelType α M N) (voxels : Nat → α)
    (sh : Shape3) (faces : Fin 6 → OrientedBlockFace) (imin ishape : P3) (j : Fin 6)
    (hlo : ∀ a : Axis, 1 ≤ imin.get a) :
    ((visibleBlockFacesBody vt voxels sh faces (ExtentN.mk imin ishape)
        (fun _ => []) j).map UnorientedUnitQuad.minimum).toFinset =
      visibleCells vt voxels sh (faces j) (ExtentN.mk imin ishape) ∧
    (visibleBlockFacesBody vt voxels sh faces (ExtentN.mk imin ishape)
        (fun _ => []) j).length =
      (visibleCells vt voxels sh (faces j) (ExtentN.mk imin ishape)).card := by
  have hbody : visibleBlockFacesBody vt voxels sh faces (ExtentN.mk imin ishape)
      (fun _ => []) j =
      ((ExtentN.mk imin ishape).iter3.filter
        (fun p => simpleEmit vt voxels sh faces p j)).map
          (fun p => (⟨p⟩ : UnorientedUnitQuad)) := by
    rw [visibleBlockFacesBody_apply, List.nil_append]
  have hmap : (((ExtentN.mk imin ishape).iter3.filter
      (fun p => simpleEmit vt voxels sh faces p j)).map
        (fun p => (⟨p⟩ : UnorientedUnitQuad))).map UnorientedUnitQuad.minimum =
      (ExtentN.mk imin ishape).iter3.filter
        (fun p => simpleEmit vt voxels sh faces p j) := by
    rw [List.map_map]
    exact List.map_id _
  have hfilter_nodup : ((ExtentN.mk imin ishape).iter3.filter
      (fun p => simpleEmit vt voxels sh faces p j)).Nodup :=
    (iter3_nodup _).filter _
  have hset : (((ExtentN.mk imin ishape).iter3.filter
      (fun p => simpleEmit vt voxels sh faces p j)).toFinset : Finset P3) =
      visibleCells vt voxels sh (faces j) (ExtentN.mk imin ishape) := by
    ext p
    rw [List.mem_toFinset, List.mem_filter, mem_iter3, mem_visibleCells]
    constructor
    · rintro ⟨hc, he⟩
      have hp : 1 ≤ p.get (faces j).nAxis := by
        have h1 := (contains_mk_iff_get.1 hc) (faces j).nAxis
        have h2 := hlo (faces j).nAxis
        omega
      rw [simpleEmit_eq_faceVisibleCell vt voxels sh faces p j hp] at he
      exact ⟨hc, he⟩
    · rintro ⟨hc, he⟩
      have hp : 1 ≤ p.get (faces j).nAxis := by
        have h1 := (contains_mk_iff_get.1 hc) (faces j).nAxis
        have h2 := hlo (faces j).nAxis
        omega
      rw [← simpleEmit_eq_faceVisibleCell vt voxels sh faces p j hp] at he
      exact ⟨hc, he⟩
  constructor
  · rw [hbody, hmap, hset]
  · rw [hbody, List.length_map, ← hset, List.toFinset_card_of_nodup hfilter_nodup]

theorem assert_qmax_lt_dims (len : Nat) (sh : Shape3) (qmin qmax : P3)
    (hlaw : sh.Lawful)
    (hA : assertInBounds len sh qmin qmax = true)
    (hnd : ∀ a : Axis, qmin.get a < qmax.get a)
    (hsm : ∀ a : Axis, qmax.get a < 2147483647) :
    ∀ a : Axis, qmax.get a < sh.dims.get a := by
  have hnot : ¬ (len < sh.size ∨ (∃ a : Axis, sh.dims.get a = 0) ∨
      (∃ a : Axis, querySizeW qmin qmax a = 0) ∨
      (∃ a : Axis,
        wadd 0 (sh.dims.get a) < wadd (qmin.get a) (querySizeW qmin qmax a))) := by
    intro h
    have hfalse := (assertInBounds_false_iff len sh qmin qmax).2 h
    rw [hA] at hfalse
    simp at hfalse
  push_neg at hnot
  obtain ⟨-, hdims, -, hlub⟩ := hnot
  have hdpos : ∀ a : Axis, 0 < sh.dims.get a := by
    intro a
    have := hdims a
    omega
  have hdlt := hlaw.dims_lt hdpos
  intro a
  have hq : querySizeW qmin qmax a = qmax.get a - qmin.get a + 1 := by
    unfold querySizeW
    rw [wsub_eq_sub (by have := hsm a; unfold U32M at *; omega) (le_of_lt (hnd a))]
    exact wadd_eq_add (by have := hsm a; unfold U32M at *; omega)
  have hlub2 := hlub a
  rw [hq] at hlub2
  rw [wadd_eq_add (by have := hsm a; have := hnd a; unfold U32M at *; omega),
    wadd_eq_add (by have := hdlt a; omega)] at hlub2
  have := hnd a
  omega

theorem greedySimpleFace {α M N : Type} [DecidableEq M] [DecidableEq N]
    (vt : VoxelType α M N) (voxels : Nat → α) (len : Nat) (sh : Shape3)
    (qmin qmax : P3) (faces : Fin 6 → OrientedBlockFace)
    (b gout : GreedyQuadsBuffer α) (sout : UnitQuadBuffer)
    (hlaw : sh.Lawful)
    (hg : greedyQuads vt voxels len sh qmin qmax faces b = some gout)
    (hs : visibleBlockFaces vt voxels len sh qmin qmax faces (fun _ => []) = some sout)
    (hnd : ∀ a : Axis, qmin.get a < qmax.get a)
    (hsm : ∀ a : Axis, qmax.get a < 2147483647)
    (j : Fin 6) :
    coveredGroup (faces j) (gout.groups j) =
      ((sout j).map UnorientedUnitQuad.minimum).toFinset ∧
    areaSum (gout.groups j) = (sout j).length := by
  have hA : assertInBounds len sh qmin qmax = true := by
    by_contra hA2
    rw [Bool.not_eq_true] at hA2
    unfold greedyQuads at hg
    rw [hA2] at hg
    simp at hg
  have hmax := assert_qmax_lt_dims len sh qmin qmax hlaw hA hnd hsm
  have hint := interiorOf_eq hnd hsm
  have higet : ∀ a : Axis,
      (P3.mk (qmin.x + 1) (qmin.y + 1) (qmin.z + 1)).get a = qmin.get a + 1 := by
    intro a
    cases a <;> rfl
  have hsget : ∀ a : Axis,
      (P3.mk (qmax.x - qmin.x - 1) (qmax.y - qmin.y - 1) (qmax.z - qmin.z - 1)).get a =
        qmax.get a - qmin.get a - 1 := by
    intro a
    cases a <;> rfl
  have hlo : ∀ a : Axis,
      1 ≤ (P3.mk (qmin.x + 1) (qmin.y + 1) (qmin.z + 1)).get a := by
    intro a
    rw [higet]
    omega
  have hhi : ∀ a : Axis,
      (P3.mk (qmin.x + 1) (qmin.y + 1) (qmin.z + 1)).get a +
        (P3.mk (qmax.x - qmin.x - 1) (qmax.y - qmin.y - 1)
          (qmax.z - qmin.z - 1)).get a < sh.dims.get a := by
    intro a
    rw [higet, hsget]
    have := hnd a
    have := hmax a
    omega
  have hcov := greedyQuadsForFace_cover vt voxels sh (faces j)
    (P3.mk (qmin.x + 1) (qmin.y + 1) (qmin.z + 1))
    (P3.mk (qmax.x - qmin.x - 1) (qmax.y - qmin.y - 1) (qmax.z - qmin.z - 1))
    hlaw hlo hhi
  have hsimple := simpleGroup_spec vt voxels sh faces
    (P3.mk (qmin.x + 1) (qmin.y + 1) (qmin.z + 1))
    (P3.mk (qmax.x - qmin.x - 1) (qmax.y - qmin.y - 1) (qmax.z - qmin.z - 1))
    j hlo
  have hgj : gout.groups j = (greedyQuadsForFace vt voxels sh
      (ExtentN.mk (P3.mk (qmin.x + 1) (qmin.y + 1) (qmin.z + 1))
        (P3.mk (qmax.x - qmin.x - 1) (qmax.y - qmin.y - 1) (qmax.z - qmin.z - 1)))
      (faces j) []).2 := by
    rw [greedyQuads_groups vt voxels len sh qmin qmax faces b gout hg j, hint]
  have hsj : sout j = visibleBlockFacesBody vt voxels sh faces
      (ExtentN.mk (P3.mk (qmin.x + 1) (qmin.y + 1) (qmin.z + 1))
        (P3.mk (qmax.x - qmin.x - 1) (qmax.y - qmin.y - 1) (qmax.z - qmin.z - 1)))
      (fun _ => []) j := by
    unfold visibleBlockFaces at hs
    rw [hA, if_pos rfl] at hs
    have hs2 := Option.some.inj hs
    rw [← hs2, hint]
  constructor
  · rw [hgj, hsj, hcov.1, hsimple.1]
  · rw [hgj, hsj, hcov.2, hsimple.2]

theorem eq_some_getD {β : Type} (o : Option β) (d : β) (h : o.isSome = true) :
    o = some (o.getD d) := by
  cases o with
  | none => simp at h
  | some v => rfl

theorem demo_hg : greedyQuads demoVT demoVoxels 64 (rowMajor 4 4 4)
    (P3.mk 0 0 0) (P3.mk 3 3 3) rhYUpFaces
    ⟨fun _ => [], fun _ => false, 0⟩ =
    some ((greedyQuads demoVT demoVoxels 64 (rowMajor 4 4 4)
      (P3.mk 0 0 0) (P3.mk 3 3 3) rhYUpFaces
      ⟨fun _ => [], fun _ => false, 0⟩).getD ⟨fun _ => [], fun _ => false, 0⟩) :=
  eq_some_getD _ _ rfl

theorem demo_hs : visibleBlockFaces demoVT demoVoxels 64 (rowMajor 4 4 4)
    (P3.mk 0 0 0) (P3.mk 3 3 3) rhYUpFaces (fun _ => []) =
    some ((visibleBlockFaces demoVT demoVoxels 64 (rowMajor 4 4 4)
      (P3.mk 0 0 0) (P3.mk 3 3 3) rhYUpFaces (fun _ => [])).getD (fun _ => [])) :=
  eq_some_getD _ _ rfl

/-- C1: on every input accepted by the entry check (with a non-degenerate
query extent whose coordinates are below the i32 bound, over a lawful
shape), expanding each quad emitted by greedy_quads into its width times
height covered unit cells yields, for each of the six faces separately,
exactly the set of cells of the unit quads emitted by visible_block_faces
on the same input: greedy merging changes the quad count, never the
covered set. -/
theorem claim1_coverage_equivalence {α M N : Type} [DecidableEq M] [DecidableEq N]
    (vt : VoxelType α M N) (voxels : Nat → α) (len : Nat) (sh : Shape3)
    (qmin qmax : P3) (faces : Fin 6 → OrientedBlockFace)
    (b gout : GreedyQuadsBuffer α) (sout : UnitQuadBuffer)
    (hlaw : sh.Lawful)
    (hg : greedyQuads vt voxels len sh qmin qmax faces b = some gout)
    (hs : visibleBlockFaces vt voxels len sh qmin qmax faces (fun _ => []) = some sout)
    (hnd : ∀ a : Axis, qmin.get a < qmax.get a)
    (hsm : ∀ a : Axis, qmax.get a < 2147483647) :
    ∀ j : Fin 6, coveredGroup (faces j) (gout.groups j) =
      ((sout j).map UnorientedUnitQuad.minimum).toFinset :=
  fun j => (greedySimpleFace vt voxels len sh qmin qmax faces b gout sout
    hlaw hg hs hnd hsm j).1

/-- Witness for C1 at a concrete input: the 4x4x4 row-major grid with the
2x2x2 opaque block meshed over the query [0,3]^3 by both algorithms. -/
theorem claim1_witness :
    (∀ a : Axis, (P3.mk 0 0 0).get a < (P3.mk 3 3 3).get a) ∧
    (∀ j : Fin 6, coveredGroup (rhYUpFaces j)
      (((greedyQuads demoVT demoVoxels 64 (rowMajor 4 4 4) (P3.mk 0 0 0) (P3.mk 3 3 3)
          rhYUpFaces ⟨fun _ => [], fun _ => false, 0⟩).getD
            ⟨fun _ => [], fun _ => false, 0⟩).groups j) =
      ((((visibleBlockFaces demoVT demoVoxels 64 (rowMajor 4 4 4) (P3.mk 0 0 0)
          (P3.mk 3 3 3) rhYUpFaces (fun _ => [])).getD (fun _ => [])) j).map
            UnorientedUnitQuad.minimum).toFinset) :=
  ⟨by decide,
    claim1_coverage_equivalence demoVT demoVoxels 64 (rowMajor 4 4 4)
      (P3.mk 0 0 0) (P3.mk 3 3 3) rhYUpFaces
      ⟨fun _ => [], fun _ => false, 0⟩
      ((greedyQuads demoVT demoVoxels 64 (rowMajor 4 4 4) (P3.mk 0 0 0) (P3.mk 3 3 3)
        rhYUpFaces ⟨fun _ => [], fun _ => false, 0⟩).getD
          ⟨fun _ => [], fun _ => false, 0⟩)
      ((visibleBlockFaces demoVT demoVoxels 64 (rowMajor 4 4 4) (P3.mk 0 0 0)
        (P3.mk 3 3 3) rhYUpFaces (fun _ => [])).getD (fun _ => []))
      (rowMajor_lawful (by decide)) demo_hg demo_hs (by decide) (by decide)⟩

/-- C7: on every input accepted by the entry check (with a non-degenerate
query extent whose coordinates are below the i32 bound, over a lawful
shape) and for each of the six faces, the sum of width times height over
the quads greedy_quads emits into that face's group equals the number of
unit quads visible_block_faces emits into the same face's group. -/
theorem claim7_area_conservation {α M N : Type} [DecidableEq M] [DecidableEq N]
    (vt : VoxelType α M N) (voxels : Nat → α) (len : Nat) (sh : Shape3)
    (qmin qmax : P3) (faces : Fin 6 → OrientedBlockFace)
    (b gout : GreedyQuadsBuffer α) (sout : UnitQuadBuffer)
    (hlaw : sh.Lawful)
    (hg : greedyQuads vt voxels len sh qmin qmax faces b = some gout)
    (hs : visibleBlockFaces vt voxels len sh qmin qmax faces (fun _ => []) = some sout)
    (hnd : ∀ a : Axis, qmin.get a < qmax.get a)
    (hsm : ∀ a : Axis, qmax.get a < 2147483647) :
    ∀ j : Fin 6, areaSum (gout.groups j) = (sout j).length :=
  fun j => (greedySimpleFace vt voxels len sh qmin qmax faces b gout sout
    hlaw hg hs hnd hsm j).2

/-- Witness for C7 at a concrete input: the 4x4x4 row-major grid with the
2x2x2 opaque block meshed over the query [0,3]^3 by both algorithms. -/
theorem claim7_witness :
    (∀ a : Axis, (P3.mk 3 3 3).get a < 2147483647) ∧
    (∀ j : Fin 6, areaSum
      (((greedyQuads demoVT demoVoxels 64 (rowMajor 4 4 4) (P3.mk 0 0 0) (P3.mk 3 3 3)
          rhYUpFaces ⟨fun _ => [], fun _ => false, 0⟩).getD
            ⟨fun _ => [], fun _ => false, 0⟩).groups j) =
      (((visibleBlockFaces demoVT demoVoxels 64 (rowMajor 4 4 4) (P3.mk 0 0 0)
          (P3.mk 3 3 3) rhYUpFaces (fun _ => [])).getD (fun _ => [])) j).length) :=
  ⟨by decide,
    claim7_area_conservation demoVT demoVoxels 64 (rowMajor 4 4 4)
      (P3.mk 0 0 0) (P3.mk 3 3 3) rhYUpFaces
      ⟨fun _ => [], fun _ => false, 0⟩
      ((greedyQuads demoVT demoVoxels 64 (rowMajor 4 4 4) (P3.mk 0 0 0) (P3.mk 3 3 3)
        rhYUpFaces ⟨fun _ => [], fun _ => false, 0⟩).getD
          ⟨fun _ => [], fun _ => false, 0⟩)
      ((visibleBlockFaces demoVT demoVoxels 64 (rowMajor 4 4 4) (P3.mk 0 0 0)
        (P3.mk 3 3 3) rhYUpFaces (fun _ => [])).getD (fun _ => []))
      (rowMajor_lawful (by decide)) demo_hg demo_hs (by decide) (by decide)⟩

section SafetyBasics

variable {α M N : Type}
variable (sh : Shape3) (f : OrientedBlockFace)
variable (imin ishape : P3)

end SafetyBasics

section CongrLadder

variable {α M N : Type} [DecidableEq M] [DecidableEq N]
variable (vt : VoxelType α M N) (voxels1 voxels2 : Nat → α) (len : Nat)
variable (sh : Shape3) (f : OrientedBlockFace) (imin ishape : P3)

end CongrLadder

section FindQuadCongr

variable {α M N : Type} [DecidableEq M] [DecidableEq N]
variable (vt : VoxelType α M N) (voxels1 voxels2 : Nat → α) (len : Nat)
variable (sh : Shape3) (f : OrientedBlockFace) (imin ishape : P3)

end FindQuadCongr

section ProcessCellCongr

variable {α M N : Type} [DecidableEq M] [DecidableEq N]
variable (vt : VoxelType α M N) (voxels1 voxels2 : Nat → α) (len : Nat)
variable (sh : Shape3) (f : OrientedBlockFace) (imin ishape : P3)

end ProcessCellCongr

section SweepCongr

variable {α M N : Type} [DecidableEq M] [DecidableEq N]
variable (vt : VoxelType α M N) (voxels1 voxels2 : Nat → α) (len : Nat)
variable (sh : Shape3) (f : OrientedBlockFace) (imin ishape : P3)

end SweepCongr

end BlockMesh
